import Mathlib

/-!
Verification of the schema drift-detection and apply-script core of the
`compare` command (src/commands/compare.rs) against its specification.

The Rust code is shallowly embedded: every `def` below is a direct
translation of the like-named Rust function.  Rust `String` becomes Lean
`String` (with character-level scanners standing in for the `regex` crate's
fixed patterns, and an explicit JSON printer standing in for `serde_json`
with its default `BTreeMap` field ordering), Rust `HashMap<String, String>`
becomes an association list read through `List.lookup` (entries are
prepended, so the first hit is the most recent insertion, matching
`HashMap::insert` overwrite semantics), and `Vec::sort` becomes an
insertion sort by the same lexicographic byte order `Ord for String` uses.
Scanners are written with structural recursion (a fuel argument bounded by
the input length where needed) so that every definition evaluates.
-/

namespace SqlCmp

/-! ## Character and string utilities -/

/-- Rust `char::is_whitespace` / the regex class `\s`: the Unicode
White_Space code points. -/
def isRustWS (c : Char) : Bool :=
  let n := c.toNat
  n == 9 || n == 10 || n == 11 || n == 12 || n == 13 || n == 32 ||
    n == 0x85 || n == 0xA0 || n == 0x1680 ||
    (decide (0x2000 ≤ n) && decide (n ≤ 0x200A)) ||
    n == 0x2028 || n == 0x2029 || n == 0x202F || n == 0x205F || n == 0x3000

/-- Lexicographic order on character lists by code point; on UTF-8 encoded
text this coincides with the byte order `Ord for String` compares with. -/
def lexLe : List Char → List Char → Bool
  | [], _ => true
  | _ :: _, [] => false
  | a :: as, b :: bs =>
    if a.toNat < b.toNat then true
    else if b.toNat < a.toNat then false
    else lexLe as bs

/-- The order `Vec::<String>::sort` sorts by, as a proposition. -/
def strLe (a b : String) : Prop := lexLe a.data b.data = true

instance : DecidableRel strLe := fun a b => by
  unfold strLe; infer_instance

/-- Rust `Vec::sort` on strings (the result of a comparison sort is the
unique sorted permutation, so insertion sort is extensionally the same). -/
def sortStrings (l : List String) : List String := List.insertionSort strLe l

/-- Rust `Vec::<String>::join(sep)`. -/
def joinSep (sep : String) : List String → String
  | [] => ""
  | [x] => x
  | x :: xs => x ++ sep ++ joinSep sep xs

/-- Rust `str::starts_with`. -/
def startsWithStr (p s : String) : Bool := p.data.isPrefixOf s.data

/-- ASCII lowercasing, modelling Rust `str::to_lowercase` on the ASCII
identifiers and type names this program feeds it. -/
def lowerStr (s : String) : String := ⟨s.data.map Char.toLower⟩

/-- Rust `str::eq_ignore_ascii_case`. -/
def eqIgnoreCase (a b : String) : Bool := lowerStr a == lowerStr b

/-- Rust `str::split(sep)` for a one-character separator. -/
def splitChar (sep : Char) : List Char → List (List Char)
  | [] => [[]]
  | c :: rest =>
    match splitChar sep rest with
    | [] => [[c]]
    | h :: t => if c = sep then [] :: h :: t else (c :: h) :: t

/-- Rust `str::split_once(sep)`: the pieces before and after the first
occurrence of the character. -/
def splitOnceChar (sep : Char) : List Char → Option (List Char × List Char)
  | [] => none
  | c :: rest =>
    if c = sep then some ([], rest)
    else
      match splitOnceChar sep rest with
      | some (a, b) => some (c :: a, b)
      | none => none

/-- Rust `str::find(pat)` combined with slicing: the text before the first
occurrence of `pat` and the text after it. -/
def splitAtSub (pat : List Char) : List Char → Option (List Char × List Char)
  | [] => if pat.isEmpty then some ([], []) else none
  | c :: rest =>
    if pat.isPrefixOf (c :: rest) then some ([], (c :: rest).drop pat.length)
    else
      match splitAtSub pat rest with
      | some (a, b) => some (c :: a, b)
      | none => none

/-! ## DefinitionNormalizer (`normalize_definition`, compare.rs:650-682) -/

/-- Rust `str::replace("\r\n", "\n")`: leftmost, non-overlapping. -/
def replaceCRLF : List Char → List Char
  | [] => []
  | [c] => [c]
  | a :: b :: rest =>
    if a = '\r' ∧ b = '\n' then '\n' :: replaceCRLF rest
    else a :: replaceCRLF (b :: rest)

/-- Scan to just past the first `*/`, as the lazy `.*?\*/` tail of the
block-comment regex `(?s)/\*.*?\*/` does. -/
def findCloseBlock : List Char → Option (List Char)
  | [] => none
  | [_] => none
  | a :: b :: rest =>
    if a = '*' ∧ b = '/' then some rest
    else findCloseBlock (b :: rest)

/-- The step count of `stripBlockGo` (each step consumes at least one
character, so the input length is enough fuel). -/
def stripBlockGo : Nat → List Char → List Char
  | _, [] => []
  | _, [c] => [c]
  | 0, l => l
  | fuel + 1, a :: b :: rest =>
    if a = '/' ∧ b = '*' then
      match findCloseBlock rest with
      | some rest' => stripBlockGo fuel rest'
      | none => a :: b :: rest
    else a :: stripBlockGo fuel (b :: rest)

/-- `block_comment_re().replace_all(text, "")` (regex `(?s)/\*.*?\*/`):
each leftmost `/*` that a `*/` follows is removed together with the lazily
minimal span up to that `*/`, and scanning resumes after the match. -/
def stripBlockComments (l : List Char) : List Char := stripBlockGo l.length l

/-- `line_comment_re().replace_all(text, "")` (regex `(?m)--.*$`): in copy
mode (`skipping = false`) text is kept until `--` starts a match; in skip
mode characters are dropped up to (not including) the line's `\n`. -/
def stripLineGo : Bool → List Char → List Char
  | _, [] => []
  | true, c :: rest =>
    if c = '\n' then '\n' :: stripLineGo false rest else stripLineGo true rest
  | false, [c] => [c]
  | false, a :: b :: rest =>
    if a = '-' ∧ b = '-' then stripLineGo true rest
    else a :: stripLineGo false (b :: rest)

/-- `strip_sql_comments` (compare.rs:662-667): block comments first, then
line comments. -/
def stripSqlComments (l : List Char) : List Char :=
  stripLineGo false (stripBlockComments l)

/-- Rust `str::trim`: Unicode whitespace removed from both ends. -/
def trimChars (l : List Char) : List Char :=
  ((l.dropWhile isRustWS).reverse.dropWhile isRustWS).reverse

/-- Fuel-driven core of `collapseWS`. -/
def collapseGo : Nat → List Char → List Char
  | _, [] => []
  | 0, l => l
  | fuel + 1, c :: rest =>
    if isRustWS c then ' ' :: collapseGo fuel (rest.dropWhile isRustWS)
    else c :: collapseGo fuel rest

/-- `whitespace_re().replace_all(text, " ")` (regex `\s+`): each maximal
whitespace run collapses to a single `' '`. -/
def collapseWS (l : List Char) : List Char := collapseGo l.length l

/-- `normalize_definition` (compare.rs:650-660). -/
def normalize_definition (definition : String) (ignore_whitespace strip_comments : Bool) :
    String :=
  let d := replaceCRLF definition.data
  let d := if strip_comments then stripSqlComments d else d
  let d := trimChars d
  let d := if ignore_whitespace then collapseWS d else d
  ⟨d⟩

/-- Decidable scanner for a `--` occurrence (used to state that stripping
removes every line comment). -/
def hasDashDash : List Char → Bool
  | [] => false
  | [_] => false
  | a :: b :: rest => (a == '-' && b == '-') || hasDashDash (b :: rest)

/-! ## Data model (compare.rs:23-108) -/

/-- `ModuleRow` (compare.rs:36-41); `type` carries the `sys.objects.type`
code (`P`, `V`, `FN`, `IF`, `TF`, `TR`) the catalog query returns. -/
structure ModuleRow where
  schema_name : String
  name : String
  type : String
  definition : String
deriving DecidableEq

/-- `IndexRow` (compare.rs:45-54). -/
structure IndexRow where
  schema_name : String
  table_name : String
  type : String
  is_unique : Bool
  is_primary_key : Bool
  is_unique_constraint : Bool
  key_columns : String
  include_columns : String
deriving DecidableEq

/-- `ConstraintRow` (compare.rs:58-64). -/
structure ConstraintRow where
  schema_name : String
  table_name : String
  name : String
  type : String
  definition : String
deriving DecidableEq

/-- `TableRow` (compare.rs:68-74). -/
structure TableRow where
  schema_name : String
  table_name : String
  columns : String
  indexes : String
  checks : String
deriving DecidableEq

/-- `TableColumnRow` (compare.rs:78-91); the numeric catalog columns are
`i64` in the source and become `Int`. -/
structure TableColumnRow where
  schema_name : String
  table_name : String
  column_id : Int
  column_name : String
  data_type : String
  max_length : Int
  precision : Int
  scale : Int
  is_nullable : Bool
  is_identity : Bool
  default_definition : String
  computed_definition : String
deriving DecidableEq

/-- `Snapshot` (compare.rs:25-32). -/
structure Snapshot where
  name : String
  modules : List ModuleRow
  indexes : List IndexRow
  constraints : List ConstraintRow
  tables : List TableRow
  table_columns : List TableColumnRow
deriving DecidableEq

/-- `DiffSet` (compare.rs:95-99). -/
structure DiffSet where
  changed : List String
  missing_in_right : List String
  missing_in_left : List String
deriving DecidableEq

/-- `CompareSummary` (compare.rs:103-108). -/
structure CompareSummary where
  modules : DiffSet
  indexes : DiffSet
  constraints : DiffSet
  tables : DiffSet
deriving DecidableEq

/-! ## JSON printing (the `serde_json::json!` literals of the indexer)

`serde_json::Value::to_string` on the default (`BTreeMap`) object map
prints fields in ascending key order, compactly, escaping `"`, `\` and
control characters exactly as below. -/

/-- One lowercase hex digit, as serde_json's `\u00XX` escapes use. -/
def hexDigit (n : Nat) : Char :=
  if n < 10 then Char.ofNat (48 + n) else Char.ofNat (87 + n)

/-- serde_json's escape of one character inside a JSON string. -/
def escChar (c : Char) : List Char :=
  if c = '"' then ['\\', '"']
  else if c = '\\' then ['\\', '\\']
  else if c = '\x08' then ['\\', 'b']
  else if c = '\t' then ['\\', 't']
  else if c = '\n' then ['\\', 'n']
  else if c = '\x0c' then ['\\', 'f']
  else if c = '\r' then ['\\', 'r']
  else if c.toNat < 32 then ['\\', 'u', '0', '0', hexDigit (c.toNat / 16), hexDigit (c.toNat % 16)]
  else [c]

/-- serde_json's escape of a whole string body. -/
def escChars (l : List Char) : List Char := l.flatMap escChar

/-- A JSON string literal: `"` body `"`. -/
def jsonStr (l : List Char) : List Char := '"' :: (escChars l ++ ['"'])

/-- A JSON boolean literal. -/
def jsonBool (b : Bool) : List Char := if b then "true".data else "false".data

/-- Field-name pieces of the index signature object, in the BTreeMap's
ascending key order `includeColumns < keyColumns < primaryKey < type <
unique < uniqueConstraint`. -/
def sigL1 : List Char := "\x7b\"includeColumns\":".data

def sigL2 : List Char := ",\"keyColumns\":".data

def sigL3 : List Char := ",\"primaryKey\":".data

def sigL4 : List Char := ",\"type\":".data

def sigL5 : List Char := ",\"unique\":".data

def sigL6 : List Char := ",\"uniqueConstraint\":".data

/-- The serialized index signature (the `serde_json::json!` object of
`build_index_map`, compare.rs:701-708, printed by `to_string`). -/
def sigChars (ty : List Char) (u pk uc : Bool) (kc ic : List Char) : List Char :=
  sigL1 ++ jsonStr ic ++ sigL2 ++ jsonStr kc ++ sigL3 ++ jsonBool pk ++
    sigL4 ++ jsonStr ty ++ sigL5 ++ jsonBool u ++ sigL6 ++ jsonBool uc ++ ['\x7d']

/-- `signature.to_string()` for one `IndexRow`. -/
def index_signature (r : IndexRow) : String :=
  ⟨sigChars r.type.data r.is_unique r.is_primary_key r.is_unique_constraint
    r.key_columns.data r.include_columns.data⟩

/-- The serialized table signature (the `serde_json::json!` object of
`build_table_map`, compare.rs:735-739: keys print in order
`checks < columns < indexes`). -/
def table_signature (r : TableRow) : String :=
  ⟨"\x7b\"checks\":".data ++ jsonStr r.checks.data ++
    ",\"columns\":".data ++ jsonStr r.columns.data ++
    ",\"indexes\":".data ++ jsonStr r.indexes.data ++ ['\x7d']⟩

/-! ## SnapshotIndexer (compare.rs:684-744)

Each `build_*_map` inserts into a `HashMap`; the association list below
prepends, so `List.lookup` (first hit) returns the most recent insertion,
exactly `HashMap::insert`'s overwrite semantics. -/

/-- The module map key `schema.type.name` (compare.rs:691). -/
def module_key (r : ModuleRow) : String :=
  r.schema_name ++ "." ++ r.type ++ "." ++ r.name

/-- `build_module_map` (compare.rs:684-696). -/
def build_module_map (rows : List ModuleRow) (iw sc : Bool) : List (String × String) :=
  (rows.map (fun r => (module_key r, normalize_definition r.definition iw sc))).reverse

/-- The index map key `schema.table::signature` (compare.rs:709). -/
def index_key (r : IndexRow) : String :=
  r.schema_name ++ "." ++ r.table_name ++ "::" ++ index_signature r

/-- `build_index_map` (compare.rs:698-713). -/
def build_index_map (rows : List IndexRow) : List (String × String) :=
  (rows.map (fun r => (index_key r, index_signature r))).reverse

/-- The constraint map key `schema.table.type::normalized-definition`
(compare.rs:722-726). -/
def constraint_key (r : ConstraintRow) (iw sc : Bool) : String :=
  r.schema_name ++ "." ++ r.table_name ++ "." ++ r.type ++ "::" ++
    normalize_definition r.definition iw sc

/-- `build_constraint_map` (compare.rs:715-730): the key is stored as its
own value. -/
def build_constraint_map (rows : List ConstraintRow) (iw sc : Bool) :
    List (String × String) :=
  (rows.map (fun r => (constraint_key r iw sc, constraint_key r iw sc))).reverse

/-- The table map key `schema.table` (compare.rs:740). -/
def table_key (r : TableRow) : String := r.schema_name ++ "." ++ r.table_name

/-- `build_table_map` (compare.rs:732-744). -/
def build_table_map (rows : List TableRow) : List (String × String) :=
  (rows.map (fun r => (table_key r, table_signature r))).reverse

/-! ## DiffEngine (compare.rs:746-845) -/

/-- The distinct keys of a map (a `HashMap` iterates each key once). -/
def mapKeys (m : List (String × String)) : List String := (m.map Prod.fst).dedup

/-- `diff_maps` (compare.rs:746-775): for each key of `left`, present in
`right` with a different value → `changed`, absent from `right` →
`missing_in_right`; each key of `right` absent from `left` →
`missing_in_left`; all three sorted ascending. -/
def diff_maps (left right : List (String × String)) : DiffSet :=
  let changed := (mapKeys left).filter fun k =>
    match List.lookup k left, List.lookup k right with
    | some v, some rv => rv != v
    | _, _ => false
  let missing_in_right := (mapKeys left).filter fun k => (List.lookup k right).isNone
  let missing_in_left := (mapKeys right).filter fun k => (List.lookup k left).isNone
  { changed := sortStrings changed
    missing_in_right := sortStrings missing_in_right
    missing_in_left := sortStrings missing_in_left }

/-- `summarize` (compare.rs:777-798). -/
def summarize (left right : Snapshot) (ignore_whitespace strip_comments : Bool) :
    CompareSummary :=
  let mod_left := build_module_map left.modules ignore_whitespace strip_comments
  let mod_right := build_module_map right.modules ignore_whitespace strip_comments
  let idx_left := build_index_map left.indexes
  let idx_right := build_index_map right.indexes
  let con_left := build_constraint_map left.constraints ignore_whitespace strip_comments
  let con_right := build_constraint_map right.constraints ignore_whitespace strip_comments
  let tbl_left := build_table_map left.tables
  let tbl_right := build_table_map right.tables
  { modules := diff_maps mod_left mod_right
    indexes := diff_maps idx_left idx_right
    constraints := diff_maps con_left con_right
    tables := diff_maps tbl_left tbl_right }

/-- `has_drift` (compare.rs:832-845). -/
def has_drift (summary : CompareSummary) : Bool :=
  !summary.modules.changed.isEmpty || !summary.modules.missing_in_left.isEmpty ||
    !summary.modules.missing_in_right.isEmpty ||
    !summary.indexes.changed.isEmpty || !summary.indexes.missing_in_left.isEmpty ||
    !summary.indexes.missing_in_right.isEmpty ||
    !summary.constraints.changed.isEmpty || !summary.constraints.missing_in_left.isEmpty ||
    !summary.constraints.missing_in_right.isEmpty ||
    !summary.tables.changed.isEmpty || !summary.tables.missing_in_left.isEmpty ||
    !summary.tables.missing_in_right.isEmpty

/-! ## A right-to-left recognizer for index signatures

Used only in proofs (claim C5): reading a signature from its last
character backwards is deterministic, so no serialized signature is a
proper suffix of another.  `leadBS` counts the backslashes that follow a
quote in the reversed stream (= precede it in the original); an odd run
means the quote was escaped content, an even run means it is the string's
opening delimiter. -/

/-- Drop an expected literal prefix. -/
def stripPfx : List Char → List Char → Option (List Char)
  | [], s => some s
  | _ :: _, [] => none
  | c :: p, d :: s => if c = d then stripPfx p s else none

/-- Leading backslash run length. -/
def leadBS : List Char → Nat
  | [] => 0
  | c :: rest => if c = '\\' then leadBS rest + 1 else 0

/-- Scan a reversed JSON string body up to its opening quote. -/
def strLoopRev : List Char → Option (List Char)
  | [] => none
  | c :: rest =>
    if c = '"' then
      if leadBS rest % 2 = 1 then strLoopRev rest else some rest
    else strLoopRev rest

/-- Recognize a reversed JSON string literal (closing quote first). -/
def parseStrRev : List Char → Option (List Char)
  | '"' :: rest => strLoopRev rest
  | _ => none

/-- Recognize a reversed JSON boolean literal. -/
def parseBoolRev (s : List Char) : Option (List Char) :=
  match stripPfx "true".data.reverse s with
  | some r => some r
  | none => stripPfx "false".data.reverse s

/-- Recognize a whole reversed index signature, returning the rest of the
stream. -/
def parseSigRev (s : List Char) : Option (List Char) :=
  (stripPfx ['\x7d'] s).bind fun s =>
  (parseBoolRev s).bind fun s =>
  (stripPfx sigL6.reverse s).bind fun s =>
  (parseBoolRev s).bind fun s =>
  (stripPfx sigL5.reverse s).bind fun s =>
  (parseStrRev s).bind fun s =>
  (stripPfx sigL4.reverse s).bind fun s =>
  (parseBoolRev s).bind fun s =>
  (stripPfx sigL3.reverse s).bind fun s =>
  (parseStrRev s).bind fun s =>
  (stripPfx sigL2.reverse s).bind fun s =>
  (parseStrRev s).bind fun s =>
  (stripPfx sigL1.reverse s).bind some

/-! ## ApplyScriptSynthesizer (compare.rs:1198-1524) -/

/-- `type_keyword` (compare.rs:1198-1206). -/
def type_keyword (code : String) : String :=
  if code = "P" then "PROCEDURE"
  else if code = "V" then "VIEW"
  else if code = "FN" ∨ code = "IF" ∨ code = "TF" then "FUNCTION"
  else if code = "TR" then "TRIGGER"
  else "OBJECT"

/-- A regex word character (`\w`, here for the ASCII SQL text the word
boundaries of `create_or_alter`'s patterns are checked against). -/
def isWordChar (c : Char) : Bool := c.isAlphanum || c == '_'

/-- Case-insensitive literal match (ASCII), returning the rest. -/
def matchCaseless : List Char → List Char → Option (List Char)
  | [], s => some s
  | _ :: _, [] => none
  | p :: ps, c :: cs =>
    if p.toLower = c.toLower then matchCaseless ps cs else none

/-- `\s+`: at least one whitespace character, consumed maximally (the
following token starts with a letter, so the greedy run never gives any
back). -/
def skipWs1 : List Char → Option (List Char)
  | c :: rest => if isRustWS c then some (rest.dropWhile isRustWS) else none
  | [] => none

/-- A word boundary after a match: the next character, if any, is not a
word character. -/
def boundaryAfter : List Char → Bool
  | [] => true
  | c :: _ => !isWordChar c

/-- Match `CREATE\s+(OR\s+ALTER\s+)?TYPE_KEY\b` at the current position
(`\bCREATE` was checked by the caller), returning the rest after the
match. -/
def matchCreateTk (tk : List Char) (s : List Char) : Option (List Char) :=
  (matchCaseless "CREATE".data s).bind fun s1 =>
  (skipWs1 s1).bind fun s2 =>
    let withGroup :=
      (matchCaseless "OR".data s2).bind fun s3 =>
      (skipWs1 s3).bind fun s4 =>
      (matchCaseless "ALTER".data s4).bind fun s5 =>
      (skipWs1 s5).bind fun s6 =>
      (matchCaseless tk s6).bind fun s7 =>
      if boundaryAfter s7 then some s7 else none
    match withGroup with
    | some s7 => some s7
    | none =>
      (matchCaseless tk s2).bind fun s7 =>
      if boundaryAfter s7 then some s7 else none

/-- Match `CREATE\b` at the current position. -/
def matchCreateBare (s : List Char) : Option (List Char) :=
  (matchCaseless "CREATE".data s).bind fun s1 =>
  if boundaryAfter s1 then some s1 else none

/-- Scan for the first position with a word boundary before it at which
`m` matches; `prevWord` says whether the previous character was a word
character.  Returns the text before the match and the text after it. -/
def findMatch (m : List Char → Option (List Char)) :
    Bool → List Char → Option (List Char × List Char)
  | prevWord, s =>
    match s with
    | [] =>
      if !prevWord then
        match m [] with
        | some rest => some ([], rest)
        | none => none
      else none
    | c :: rest =>
      if !prevWord then
        match m (c :: rest) with
        | some after => some ([], after)
        | none =>
          match findMatch m (isWordChar c) rest with
          | some (pre, after) => some (c :: pre, after)
          | none => none
      else
        match findMatch m (isWordChar c) rest with
        | some (pre, after) => some (c :: pre, after)
        | none => none

/-- `create_or_alter` (compare.rs:1208-1221): rewrite the first
`(?i)\bCREATE\s+(OR\s+ALTER\s+)?TYPE_KEY\b` of the trimmed definition (or,
failing that, the first `(?i)\bCREATE\b`) to `CREATE OR ALTER TYPE_KEY`. -/
def create_or_alter (definition type_key : String) : String :=
  let cleaned := trimChars definition.data
  let repl := ("CREATE OR ALTER " ++ type_key).data
  match findMatch (matchCreateTk type_key.data) false cleaned with
  | some (pre, after) => ⟨pre ++ repl ++ after⟩
  | none =>
    match findMatch matchCreateBare false cleaned with
    | some (pre, after) => ⟨pre ++ repl ++ after⟩
    | none => ⟨cleaned⟩

/-- The grouping key of `columns_by_table` (compare.rs:1226). -/
def column_table_key (r : TableColumnRow) : String :=
  r.schema_name ++ "." ++ r.table_name

/-- `columns_by_table` (compare.rs:1223-1233): group rows by
`schema.table` in encounter order, each group sorted stably by
`column_id` (insertion sort with `≤` is stable, like `sort_by_key`). -/
def columns_by_table (rows : List TableColumnRow) :
    List (String × List TableColumnRow) :=
  ((rows.map column_table_key).dedup).map fun k =>
    (k, List.insertionSort (fun a b => a.column_id ≤ b.column_id)
      (rows.filter (fun r => column_table_key r == k)))

/-- `format_type` (compare.rs:1235-1268). -/
def format_type (col : TableColumnRow) : String :=
  let dt := lowerStr col.data_type
  let len := col.max_length
  let prec := col.precision
  let scale := col.scale
  let length_types := ["varchar", "char", "nvarchar", "nchar", "varbinary", "binary"]
  if length_types.contains dt then
    let l := if dt = "nvarchar" ∨ dt = "nchar" then (if len > 0 then len / 2 else len) else len
    let size := if l = -1 then "max" else toString l
    dt ++ "(" ++ size ++ ")"
  else if dt = "decimal" ∨ dt = "numeric" then
    dt ++ "(" ++ toString prec ++ "," ++ toString scale ++ ")"
  else if dt = "datetime2" ∨ dt = "time" ∨ dt = "datetimeoffset" then
    dt ++ "(" ++ toString scale ++ ")"
  else dt

/-- `column_definition` (compare.rs:1270-1283). -/
def column_definition (col : TableColumnRow) : String :=
  if col.computed_definition ≠ "" then
    "[" ++ col.column_name ++ "] AS " ++ col.computed_definition
  else
    let parts := ["[" ++ col.column_name ++ "]", format_type col]
    let parts := parts ++ (if col.is_identity then ["IDENTITY"] else [])
    let parts := parts ++ [if col.is_nullable then "NULL" else "NOT NULL"]
    let parts := parts ++
      (if col.default_definition ≠ "" then ["DEFAULT " ++ col.default_definition] else [])
    joinSep " " parts

/-- `table_key.split_once('.').unwrap_or(("", table_key))`
(compare.rs:1302, 1436). -/
def splitSchemaTable (key : String) : String × String :=
  match splitOnceChar '.' key.data with
  | some (a, b) => (⟨a⟩, ⟨b⟩)
  | none => ("", key)

/-- `render_add_columns` (compare.rs:1285-1319): the source columns whose
name (case-insensitively) no target column bears, emitted as one
`ALTER TABLE … ADD`. -/
def render_add_columns (table_key : String)
    (source_cols target_cols : List TableColumnRow) : List String :=
  let target_names := target_cols.map fun c => lowerStr c.column_name
  let to_add := source_cols.filter fun c => !(target_names.contains (lowerStr c.column_name))
  if to_add.isEmpty then []
  else
    let st := splitSchemaTable table_key
    ["-- Adding " ++ toString to_add.length ++ " column(s) to " ++ st.1 ++ "." ++ st.2,
     "ALTER TABLE [" ++ st.1 ++ "].[" ++ st.2 ++ "]",
     "  ADD " ++ joinSep ",\n      " (to_add.map column_definition),
     "GO", ""]

/-- `TableRowSignature` (compare.rs:1501-1506). -/
structure TableRowSignature where
  columns : String
  indexes : String
  checks : String
deriving DecidableEq

/-- Decode a JSON string literal (the inverse of `jsonStr`), as serde
reads the signature strings this program itself serialized. -/
def parseJsonStr : Nat → List Char → Option (List Char × List Char)
  | 0, _ => none
  | _ + 1, [] => none
  | fuel + 1, c :: rest =>
    if c = '"' then some ([], rest)
    else if c = '\\' then
      match rest with
      | [] => none
      | e :: rest' =>
        let dec : Option (Char × List Char) :=
          if e = '"' then some ('"', rest')
          else if e = '\\' then some ('\\', rest')
          else if e = '/' then some ('/', rest')
          else if e = 'b' then some ('\x08', rest')
          else if e = 't' then some ('\t', rest')
          else if e = 'n' then some ('\n', rest')
          else if e = 'f' then some ('\x0c', rest')
          else if e = 'r' then some ('\r', rest')
          else if e = 'u' then
            match rest' with
            | h1 :: h2 :: h3 :: h4 :: rest'' =>
              let hv : Char → Option Nat := fun h =>
                if h.isDigit then some (h.toNat - 48)
                else if 'a' ≤ h ∧ h ≤ 'f' then some (h.toNat - 87)
                else if 'A' ≤ h ∧ h ≤ 'F' then some (h.toNat - 55)
                else none
              match hv h1, hv h2, hv h3, hv h4 with
              | some a, some b, some c', some d =>
                some (Char.ofNat (((a * 16 + b) * 16 + c') * 16 + d), rest'')
              | _, _, _, _ => none
            | _ => none
          else none
        match dec with
        | some (ch, r) =>
          match parseJsonStr fuel r with
          | some (body, rest2) => some (ch :: body, rest2)
          | none => none
        | none => none
    else
      match parseJsonStr fuel rest with
      | some (body, rest2) => some (c :: body, rest2)
      | none => none

/-- `parse_table_signature` (compare.rs:1497-1499):
`serde_json::from_str::<TableRowSignature>` on the signature strings this
program's own serializer produced (fixed field order, no padding; on any
other text deserialization fails and `None` is returned). -/
def parse_table_signature (sig : Option String) : Option TableRowSignature :=
  sig.bind fun s =>
    let l := s.data
    (stripPfx "\x7b\"checks\":".data l).bind fun l =>
    (stripPfx ['"'] l).bind fun l =>
    (parseJsonStr (l.length + 1) l).bind fun p1 =>
    (stripPfx ",\"columns\":".data p1.2).bind fun l =>
    (stripPfx ['"'] l).bind fun l =>
    (parseJsonStr (l.length + 1) l).bind fun p2 =>
    (stripPfx ",\"indexes\":".data p2.2).bind fun l =>
    (stripPfx ['"'] l).bind fun l =>
    (parseJsonStr (l.length + 1) l).bind fun p3 =>
    (stripPfx ['\x7d'] p3.2).bind fun l =>
    if l.isEmpty then
      some { columns := ⟨p2.1⟩, indexes := ⟨p3.1⟩, checks := ⟨p1.1⟩ }
    else none

/-- `TableDiffFlags` (compare.rs:1490-1495). -/
structure TableDiffFlags where
  columns_changed : Bool
  indexes_changed : Bool
  checks_changed : Bool

/-- `diff_table_details` (compare.rs:1508-1524). -/
def diff_table_details (left_sig right_sig : Option String) : TableDiffFlags :=
  let emptySig : TableRowSignature := { columns := "", indexes := "", checks := "" }
  let left := (parse_table_signature left_sig).getD emptySig
  let right := (parse_table_signature right_sig).getD emptySig
  { columns_changed := left.columns != right.columns
    indexes_changed := left.indexes != right.indexes
    checks_changed := left.checks != right.checks }

/-- `render_table_alter` (compare.rs:1465-1488): one string of joined
TODO-comment lines. -/
def render_table_alter (key : String) (left_sig right_sig : Option String) : String :=
  let changes := diff_table_details left_sig right_sig
  let st := splitSchemaTable key
  let stmts := ["-- TODO: Table drift detected for " ++ st.1 ++ "." ++ st.2]
  let stmts := stmts ++
    (if changes.columns_changed then
      ["--   Columns differ (type/nullability/default/identity/computed). Review and craft ALTER TABLE for " ++ st.1 ++ "." ++ st.2 ++ "."]
    else [])
  let stmts := stmts ++
    (if changes.indexes_changed then
      ["--   Non-PK/unique indexes differ. Consider recreating indexes to match source."]
    else [])
  let stmts := stmts ++
    (if changes.checks_changed then
      ["--   CHECK constraints differ. Align definitions as needed."]
    else [])
  joinSep "\n" (stmts ++ [""])

/-- The table section of `render_apply_script` (compare.rs:1408-1447).
Note the source naming swap faithfully kept here: `right_sig` is looked up
in the source map and `left_sig` in the target map (compare.rs:1417-1418),
and the two only-one-side loops read `missing_in_left` for "exists only in
source" and `missing_in_right` for "exists only in target". -/
def apply_table_lines (summary : CompareSummary) (source target : Snapshot) :
    List String :=
  let source_table_sig : List (String × String) :=
    (source.tables.map (fun t => (table_key t, table_signature t))).reverse
  let target_table_sig : List (String × String) :=
    (target.tables.map (fun t => (table_key t, table_signature t))).reverse
  let src_cols := columns_by_table source.table_columns
  let tgt_cols := columns_by_table target.table_columns
  if !summary.tables.changed.isEmpty || !summary.tables.missing_in_left.isEmpty ||
      !summary.tables.missing_in_right.isEmpty then
    "-- Table drift detected; non-destructive additions are applied automatically; other changes remain commented." ::
    (summary.tables.changed.flatMap fun key =>
      let right_sig := List.lookup key source_table_sig
      let left_sig := List.lookup key target_table_sig
      render_table_alter key left_sig right_sig ::
        render_add_columns key ((List.lookup key src_cols).getD [])
          ((List.lookup key tgt_cols).getD []))
    ++ (summary.tables.missing_in_left.flatMap fun key =>
      ("-- Table " ++ key ++ " exists only in source. Consider creating it locally.") ::
        (match List.lookup key src_cols with
        | some cols =>
          let create_cols := joinSep ",\n  " (cols.map column_definition)
          let st := splitSchemaTable key
          ["CREATE TABLE [" ++ st.1 ++ "].[" ++ st.2 ++ "] (\n  " ++ create_cols ++ "\n);\nGO\n"]
        | none => []))
    ++ (summary.tables.missing_in_right.map fun key =>
      "-- Table " ++ key ++ " exists only in target. Decide whether to drop or keep.")
  else []

/-- The drop section of `render_apply_script` (compare.rs:1389-1406),
iterating `missing_in_right` under a comment that speaks of objects "only
in target" (kept exactly as the source has it). -/
def apply_drop_lines (summary : CompareSummary) (include_drops : Bool) : List String :=
  if include_drops && !summary.modules.missing_in_right.isEmpty then
    "-- Dropping objects that exist only in target" ::
    (summary.modules.missing_in_right.flatMap fun key =>
      let parts := (splitChar '.' key.data).map fun l => (⟨l⟩ : String)
      if 3 ≤ parts.length then
        let schema := parts.headD ""
        let type_code := (parts.drop 1).headD ""
        let name := joinSep "." (parts.drop 2)
        let type_key := type_keyword type_code
        if type_key = "PROCEDURE" ∨ type_key = "FUNCTION" ∨ type_key = "VIEW" then
          ["DROP " ++ type_key ++ " IF EXISTS [" ++ schema ++ "].[" ++ name ++ "];"]
        else
          ["-- TODO: drop " ++ type_key ++ " " ++ schema ++ "." ++ name ++ " manually"]
      else [])
    ++ ["GO"]
  else []

/-- `emit_module` (compare.rs:1367-1376). -/
def emit_module (row : ModuleRow) (reason : String) : List String :=
  let type_key := type_keyword row.type
  ["-- " ++ reason ++ ": " ++ row.schema_name ++ "." ++ row.name ++ " (" ++ type_key ++ ")",
   create_or_alter row.definition type_key, "GO", ""]

/-- The module section of `render_apply_script` (compare.rs:1327-1387):
`changed` keys then `missing_in_left` keys, each looked up in the map of
SOURCE modules (a `missing_in_left` key names a target-only module, so its
lookup finds nothing and nothing is emitted — kept as the source has it). -/
def apply_module_lines (summary : CompareSummary) (source : Snapshot) : List String :=
  let source_map : List (String × ModuleRow) :=
    (source.modules.map (fun r => (module_key r, r))).reverse
  (summary.modules.changed.flatMap fun key =>
    match List.lookup key source_map with
    | some row => emit_module row "ALTER"
    | none => [])
  ++ (summary.modules.missing_in_left.flatMap fun key =>
    match List.lookup key source_map with
    | some row => emit_module row "CREATE"
    | none => [])

/-- `render_apply_script` (compare.rs:1321-1463): tables, then drops, then
modules, joined by newlines; a single fixed placeholder line when no
section produced output. -/
def render_apply_script (summary : CompareSummary) (source target : Snapshot)
    (include_drops : Bool) : String :=
  let lines := apply_table_lines summary source target
    ++ apply_drop_lines summary include_drops
    ++ apply_module_lines summary source
  let lines := if lines.isEmpty then ["-- No drift detected; nothing to apply"] else lines
  joinSep "\n" lines

/-! ## ObjectDiffPresenter (compare.rs:1108-1196) -/

/-- `match_object_predicate` (compare.rs:1108-1119). -/
def match_object_predicate (object : String) (row : ModuleRow) : Bool :=
  let parts := splitChar '.' object.data
  if parts.length = 2 then
    eqIgnoreCase row.schema_name ⟨parts.headD []⟩ &&
      eqIgnoreCase row.name ⟨(parts.drop 1).headD []⟩
  else
    eqIgnoreCase row.name object

/-- `pick_first_module` (compare.rs:1121-1124). -/
def pick_first_module (snapshot : Snapshot) (object : String) : Option ModuleRow :=
  snapshot.modules.find? (match_object_predicate object)

/-- The observable outcome of `handle_object_diff`: which terminal branch
ran and which raw texts it printed.  `unifiedDiff` carries the two
line-ending-normalized raw definitions handed to the external `similar`
crate's unified diff. -/
inductive ObjectDiffOutcome where
  | notFound
  | noDrift
  | unifiedDiff (raw_left raw_right : String)
  | oneSided (raw_left raw_right : String)
deriving DecidableEq

/-- `handle_object_diff` (compare.rs:1126-1196), with printing and
`process::exit` abstracted into the returned outcome. -/
def handle_object_diff (left right : Snapshot) (object : String)
    (ignore_whitespace strip_comments : Bool) : ObjectDiffOutcome :=
  let left_obj := pick_first_module left object
  let right_obj := pick_first_module right object
  if left_obj.isNone && right_obj.isNone then .notFound
  else
    let norm_left := (left_obj.map fun m =>
      normalize_definition m.definition ignore_whitespace strip_comments).getD ""
    let norm_right := (right_obj.map fun m =>
      normalize_definition m.definition ignore_whitespace strip_comments).getD ""
    let raw_left := (left_obj.map fun m => (⟨replaceCRLF m.definition.data⟩ : String)).getD ""
    let raw_right := (right_obj.map fun m => (⟨replaceCRLF m.definition.data⟩ : String)).getD ""
    if left_obj.isSome && right_obj.isSome && norm_left == norm_right then .noDrift
    else
      match left_obj, right_obj with
      | some _, some _ => .unifiedDiff raw_left raw_right
      | _, _ => .oneSided raw_left raw_right

/-- The process exit code each outcome selects (compare.rs:1138, 1163,
1175, 1194). -/
def object_diff_exit : ObjectDiffOutcome → Nat
  | .notFound => 4
  | .noDrift => 0
  | .unifiedDiff _ _ => 3
  | .oneSided _ _ => 3

/-- The summary path of `run` (compare.rs:156-171): exit 3 on drift, 0
otherwise. -/
def summary_exit_code (summary : CompareSummary) : Nat :=
  if has_drift summary then 3 else 0

/-! ## Connection-string overrides (compare.rs:1526-1635, config) -/

/-- `ConnectionSettings` (config/loader.rs:43-53). -/
structure ConnectionSettings where
  server : String
  port : Nat
  database : String
  user : Option String
  password : Option String
  encrypt : Bool
  trust_cert : Bool
  timeout_ms : Nat
  default_schemas : List String
deriving DecidableEq

/-- `ConnectionSettings::default` (config/loader.rs:55-69). -/
def defaultConnectionSettings : ConnectionSettings :=
  { server := "localhost", port := 1433, database := "master",
    user := none, password := none, encrypt := true, trust_cert := true,
    timeout_ms := 30000, default_schemas := ["dbo"] }

/-- `parse_bool` (config/env.rs:49-55). -/
def parse_bool (input : String) : Option Bool :=
  let s := lowerStr ⟨trimChars input.data⟩
  if s = "1" ∨ s = "true" ∨ s = "yes" ∨ s = "y" ∨ s = "on" then some true
  else if s = "0" ∨ s = "false" ∨ s = "no" ∨ s = "n" ∨ s = "off" then some false
  else none

/-- Rust `str::parse::<uN>()`: optional `+`, then ASCII digits, within the
type's range. -/
def parseNatBounded (bound : Nat) (s : List Char) : Option Nat :=
  let l := match s with | '+' :: r => r | _ => s
  if l.isEmpty then none
  else if l.all Char.isDigit then
    let n := l.foldl (fun acc c => acc * 10 + (c.toNat - 48)) 0
    if n ≤ bound then some n else none
  else none

/-- `parse_url_style` (compare.rs:1533-1583). -/
def parse_url_style (raw : String) : Except String ConnectionSettings :=
  let conn := defaultConnectionSettings
  let remaining := trimChars raw.data
  let remaining := match splitAtSub "://".data remaining with
    | some (_, after) => after
    | none => remaining
  let authHost := match splitOnceChar '@' remaining with
    | some (auth, host) => (some auth, host)
    | none => (none, remaining)
  let conn := match authHost.1 with
    | some auth =>
      let userPass := match splitOnceChar ':' auth with
        | some (u, p) => (u, some p)
        | none => (auth, none)
      let conn := if userPass.1.isEmpty then conn
        else { conn with user := some ⟨userPass.1⟩ }
      match userPass.2 with
      | some p => if p.isEmpty then conn else { conn with password := some ⟨p⟩ }
      | none => conn
    | none => conn
  let host_part := authHost.2
  let hostDb := match splitOnceChar '/' host_part with
    | some (hp, db) => (hp, some db)
    | none => (host_part, none)
  let conn := match hostDb.2 with
    | some db => if db.isEmpty then conn else { conn with database := ⟨db⟩ }
    | none => conn
  let host_port := hostDb.1
  let conn :=
    if host_port.isEmpty then conn
    else
      let hp := match splitOnceChar ':' host_port with
        | some (h, p) => (h, some p)
        | none => (host_port, none)
      let conn := if hp.1.isEmpty then conn else { conn with server := ⟨hp.1⟩ }
      match hp.2 with
      | some p =>
        match parseNatBounded 65535 p with
        | some port => { conn with port := port }
        | none => conn
      | none => conn
  .ok conn

/-- One `key=value;` segment applied to the settings (the body of
`parse_ado_style`'s loop, compare.rs:1587-1633). -/
def applyAdoPart (conn : ConnectionSettings) (part : List Char) : ConnectionSettings :=
  let trimmed := trimChars part
  if trimmed.isEmpty then conn
  else
    let kv := match splitOnceChar '=' trimmed with
      | some (k, v) => (k, v)
      | none => (trimmed, [])
    let key := lowerStr ⟨trimChars kv.1⟩
    let value : String := ⟨trimChars kv.2⟩
    if key = "server" ∨ key = "data source" ∨ key = "addr" ∨ key = "address" ∨
        key = "network address" then
      match splitOnceChar ',' value.data with
      | some (host, port_str) =>
        let conn := { conn with server := ⟨host⟩ }
        match parseNatBounded 65535 port_str with
        | some port => { conn with port := port }
        | none => conn
      | none => { conn with server := value }
    else if key = "database" ∨ key = "initial catalog" then { conn with database := value }
    else if key = "user id" ∨ key = "uid" ∨ key = "user" then { conn with user := some value }
    else if key = "password" ∨ key = "pwd" then { conn with password := some value }
    else if key = "encrypt" then
      match parse_bool value with
      | some b => { conn with encrypt := b }
      | none => conn
    else if key = "trustservercertificate" ∨ key = "trust server certificate" then
      match parse_bool value with
      | some b => { conn with trust_cert := b }
      | none => conn
    else if key = "connection timeout" ∨ key = "connect timeout" then
      match parseNatBounded 18446744073709551615 value.data with
      | some secs => { conn with timeout_ms := secs * 1000 }
      | none => conn
    else if key = "trusted_connection" ∨ key = "integrated security" then
      match parse_bool value with
      | some true => { conn with user := none, password := none }
      | _ => conn
    else conn

/-- `parse_ado_style` (compare.rs:1585-1635): unrecognized keys fall
through silently; the function never errs. -/
def parse_ado_style (raw : String) : Except String ConnectionSettings :=
  .ok ((splitChar ';' raw.data).foldl applyAdoPart defaultConnectionSettings)

/-- `contains("://")`. -/
def containsSub (pat s : List Char) : Bool := (splitAtSub pat s).isSome

/-- `parse_connection_string` (compare.rs:1526-1531). -/
def parse_connection_string (raw : String) : Except String ConnectionSettings :=
  if containsSub "://".data raw.data then parse_url_style raw
  else parse_ado_style raw

/-! ## Concrete scenarios used by the claims -/

/-- Scenario C1, source side: one procedure `dbo.Foo` (catalog type code
`P`) with the definition the spec's scenario gives. -/
def srcFoo : Snapshot :=
  { name := "src",
    modules := [{ schema_name := "dbo", name := "Foo", type := "P",
                  definition := "CREATE PROC Foo AS SELECT 1" }],
    indexes := [], constraints := [], tables := [], table_columns := [] }

/-- Scenario C1, target side: no modules. -/
def tgtEmpty : Snapshot :=
  { name := "tgt", modules := [], indexes := [], constraints := [], tables := [],
    table_columns := [] }

/-- A table-column row builder for the C8 scenario. -/
def mkCol (table : String) (id : Int) (name ty : String) (len : Int)
    (identity nullable : Bool) : TableColumnRow :=
  { schema_name := "dbo", table_name := table, column_id := id, column_name := name,
    data_type := ty, max_length := len, precision := 10, scale := 0,
    is_nullable := nullable, is_identity := identity,
    default_definition := "", computed_definition := "" }

/-- Scenario C8, source side: table `dbo.T` with columns Id, Name, Note. -/
def srcT : Snapshot :=
  { name := "src", modules := [], indexes := [], constraints := [],
    tables := [{ schema_name := "dbo", table_name := "T",
                 columns := "1:Id||2:Name||3:Note", indexes := "", checks := "" }],
    table_columns := [mkCol "T" 1 "Id" "int" 4 true false,
                      mkCol "T" 2 "Name" "nvarchar" 200 false false,
                      mkCol "T" 3 "Note" "nvarchar" 400 false true] }

/-- Scenario C8, target side: table `dbo.T` with columns Id, Name only. -/
def tgtT : Snapshot :=
  { name := "tgt", modules := [], indexes := [], constraints := [],
    tables := [{ schema_name := "dbo", table_name := "T",
                 columns := "1:Id||2:Name", indexes := "", checks := "" }],
    table_columns := [mkCol "T" 1 "Id" "int" 4 true false,
                      mkCol "T" 2 "Name" "nvarchar" 200 false false] }

/-! ## Statement-level definitions -/

instance : IsTotal String strLe := by
  constructor
  intro a b
  unfold strLe
  generalize a.data = as
  generalize b.data = bs
  induction as generalizing bs with
  | nil => left; rfl
  | cons x xs ih =>
    cases bs with
    | nil => right; rfl
    | cons y ys =>
      rcases Nat.lt_trichotomy x.toNat y.toNat with h | h | h
      · left; simp [lexLe, h]
      · have h1 : ¬ x.toNat < y.toNat := by omega
        have h2 : ¬ y.toNat < x.toNat := by omega
        rcases ih ys with hc | hc
        · left; simp [lexLe, h1, h2, hc]
        · right; simp [lexLe, h1, h2, hc]
      · right; simp [lexLe, h]

instance : IsTrans String strLe := by
  constructor
  intro a b c
  unfold strLe
  generalize a.data = as
  generalize b.data = bs
  generalize c.data = cs
  induction as generalizing bs cs with
  | nil => intro _ _; rfl
  | cons x xs ih =>
    cases bs with
    | nil => intro h; simp [lexLe] at h
    | cons y ys =>
      cases cs with
      | nil => intro _ h; simp [lexLe] at h
      | cons z zs =>
        intro h1 h2
        simp only [lexLe] at h1 h2 ⊢
        split at h1
        · rename_i hxy
          split at h2
          · rename_i hyz; simp [show x.toNat < z.toNat by omega]
          · split at h2
            · simp at h2
            · rename_i hyz hzy
              simp [show x.toNat < z.toNat by omega]
        · split at h1
          · simp at h1
          · rename_i hxy hyx
            split at h2
            · rename_i hyz
              simp [show x.toNat < z.toNat by omega]
            · split at h2
              · simp at h2
              · rename_i hyz hzy
                have hxz : ¬ x.toNat < z.toNat := by omega
                have hzx : ¬ z.toNat < x.toNat := by omega
                simp only [if_neg hxz, if_neg hzx]
                exact ih ys zs h1 h2

/-- The claim's reading of `columnDefinition` (spec §4.4), written from
the spec's words: a computed column renders as `[name] AS expr` and
nothing else; otherwise, in order, the bracket-quoted name, the type spec
(`varchar/char/nvarchar/nchar/varbinary/binary` as `type(len)` with a
stored length of `-1` rendered `max` and the two unicode types' stored
length halved; `decimal/numeric` as `type(precision,scale)`;
`datetime2/time/datetimeoffset` as `type(scale)`; any other type bare),
then `IDENTITY` iff identity, then `NULL` or `NOT NULL`, then
`DEFAULT expr` iff a default is present. -/
def column_definition_spec (col : TableColumnRow) : String :=
  if col.computed_definition ≠ "" then
    "[" ++ col.column_name ++ "] AS " ++ col.computed_definition
  else
    let dt := lowerStr col.data_type
    let typeSpec :=
      if dt = "varchar" ∨ dt = "char" ∨ dt = "nvarchar" ∨ dt = "nchar" ∨
          dt = "varbinary" ∨ dt = "binary" then
        let stored := col.max_length
        let len := if dt = "nvarchar" ∨ dt = "nchar" then
            (if stored = -1 then stored else stored / 2)
          else stored
        dt ++ "(" ++ (if len = -1 then "max" else toString len) ++ ")"
      else if dt = "decimal" ∨ dt = "numeric" then
        dt ++ "(" ++ toString col.precision ++ "," ++ toString col.scale ++ ")"
      else if dt = "datetime2" ∨ dt = "time" ∨ dt = "datetimeoffset" then
        dt ++ "(" ++ toString col.scale ++ ")"
      else dt
    joinSep " " (["[" ++ col.column_name ++ "]", typeSpec] ++
      (if col.is_identity then ["IDENTITY"] else []) ++
      [if col.is_nullable then "NULL" else "NOT NULL"] ++
      (if col.default_definition ≠ "" then ["DEFAULT " ++ col.default_definition] else []))

/-- The statement forms a table-section entry may take: a comment, a blank,
`GO`, the `ALTER TABLE` head, its `ADD` payload, or a `CREATE TABLE` —
never a `DROP COLUMN` or `ALTER COLUMN` statement. -/
def allowedApplyTableLine (line : String) : Bool :=
  line == "" || line == "GO" || startsWithStr "--" line ||
    startsWithStr "ALTER TABLE [" line || startsWithStr "  ADD " line ||
    startsWithStr "CREATE TABLE [" line

/-! ## Map and diff lemmas -/

theorem lookup_mem {k v : String} : ∀ {m : List (String × String)},
    List.lookup k m = some v → (k, v) ∈ m := by
  intro m
  induction m with
  | nil => simp [List.lookup]
  | cons p t ih =>
    intro h
    rw [List.lookup] at h
    split at h
    · rename_i hbeq
      cases h
      have := eq_of_beq hbeq
      simp [this]
    · simp [ih h]

theorem lookup_isSome_iff {k : String} : ∀ {m : List (String × String)},
    (List.lookup k m).isSome = true ↔ k ∈ mapKeys m := by
  intro m
  unfold mapKeys
  induction m with
  | nil => simp [List.lookup]
  | cons p t ih =>
    rw [List.lookup]
    constructor
    · intro h
      split at h
      · rename_i hbeq
        simp [List.mem_dedup, eq_of_beq hbeq]
      · rw [ih] at h
        simp [List.mem_dedup] at h ⊢
        right; exact h
    · intro h
      split
      · simp
      · rename_i hbeq
        rw [ih]
        simp only [List.mem_dedup, List.map_cons, List.mem_cons] at h ⊢
        rcases h with h | h
        · exact absurd h (by simpa using hbeq)
        · exact h

theorem mem_sortStrings {a : String} {l : List String} :
    a ∈ sortStrings l ↔ a ∈ l :=
  (List.perm_insertionSort strLe l).mem_iff

theorem sorted_sortStrings (l : List String) : List.Sorted strLe (sortStrings l) :=
  List.sorted_insertionSort strLe l

theorem mem_diff_changed {k : String} {left right : List (String × String)} :
    k ∈ (diff_maps left right).changed ↔
      ∃ v rv, List.lookup k left = some v ∧ List.lookup k right = some rv ∧ rv ≠ v := by
  unfold diff_maps
  simp only [mem_sortStrings, List.mem_filter]
  constructor
  · rintro ⟨hk, hp⟩
    revert hp
    split
    · rename_i v rv hv hrv
      intro hp
      exact ⟨v, rv, hv, hrv, by simpa using hp⟩
    · simp
  · rintro ⟨v, rv, hv, hrv, hne⟩
    refine ⟨lookup_isSome_iff.mp (by simp [hv]), ?_⟩
    rw [hv, hrv]
    simpa using hne

theorem mem_diff_mir {k : String} {left right : List (String × String)} :
    k ∈ (diff_maps left right).missing_in_right ↔
      (List.lookup k left).isSome = true ∧ List.lookup k right = none := by
  unfold diff_maps
  simp only [mem_sortStrings, List.mem_filter]
  rw [← lookup_isSome_iff]
  simp [Option.isNone_iff_eq_none]

theorem mem_diff_mil {k : String} {left right : List (String × String)} :
    k ∈ (diff_maps left right).missing_in_left ↔
      (List.lookup k right).isSome = true ∧ List.lookup k left = none := by
  unfold diff_maps
  simp only [mem_sortStrings, List.mem_filter]
  rw [← lookup_isSome_iff]
  simp [Option.isNone_iff_eq_none]

/-- C2: `diff_maps` classifies every key by the stated rule — changed when
both sides hold it with different values, missing-in-right when only the
left does, missing-in-left when only the right does — so the three lists
are pairwise disjoint, their union covers exactly the drifted keys of
either side, and each list is sorted ascending (in the byte order Rust
`sort` uses). -/
theorem diff_maps_partitions (left right : List (String × String)) :
    ((∀ k, k ∈ (diff_maps left right).changed ↔
        ∃ v rv, List.lookup k left = some v ∧ List.lookup k right = some rv ∧ rv ≠ v) ∧
      (∀ k, k ∈ (diff_maps left right).missing_in_right ↔
        (List.lookup k left).isSome = true ∧ List.lookup k right = none) ∧
      (∀ k, k ∈ (diff_maps left right).missing_in_left ↔
        (List.lookup k right).isSome = true ∧ List.lookup k left = none)) ∧
    ((∀ k, ¬(k ∈ (diff_maps left right).changed ∧
        k ∈ (diff_maps left right).missing_in_right)) ∧
      (∀ k, ¬(k ∈ (diff_maps left right).changed ∧
        k ∈ (diff_maps left right).missing_in_left)) ∧
      (∀ k, ¬(k ∈ (diff_maps left right).missing_in_right ∧
        k ∈ (diff_maps left right).missing_in_left))) ∧
    (∀ k, (k ∈ (diff_maps left right).changed ∨
        k ∈ (diff_maps left right).missing_in_right ∨
        k ∈ (diff_maps left right).missing_in_left) ↔
      ((∃ v rv, List.lookup k left = some v ∧ List.lookup k right = some rv ∧ rv ≠ v) ∨
        ((List.lookup k left).isSome = true ∧ List.lookup k right = none) ∨
        ((List.lookup k right).isSome = true ∧ List.lookup k left = none))) ∧
    (List.Sorted strLe (diff_maps left right).changed ∧
      List.Sorted strLe (diff_maps left right).missing_in_right ∧
      List.Sorted strLe (diff_maps left right).missing_in_left) := by
  refine ⟨⟨fun k => mem_diff_changed, fun k => mem_diff_mir, fun k => mem_diff_mil⟩,
    ⟨?_, ?_, ?_⟩, ?_, ?_, ?_, ?_⟩
  · rintro k ⟨h1, h2⟩
    rw [mem_diff_changed] at h1
    rw [mem_diff_mir] at h2
    rcases h1 with ⟨v, rv, _, hrv, _⟩
    rw [h2.2] at hrv
    cases hrv
  · rintro k ⟨h1, h2⟩
    rw [mem_diff_changed] at h1
    rw [mem_diff_mil] at h2
    rcases h1 with ⟨v, rv, hv, _, _⟩
    rw [h2.2] at hv
    cases hv
  · rintro k ⟨h1, h2⟩
    rw [mem_diff_mir] at h1
    rw [mem_diff_mil] at h2
    rw [h2.2] at h1
    simpa using h1.1
  · intro k
    rw [mem_diff_changed, mem_diff_mir, mem_diff_mil]
  · exact sorted_sortStrings _
  · exact sorted_sortStrings _
  · exact sorted_sortStrings _

theorem diff_maps_self (m : List (String × String)) :
    diff_maps m m = { changed := [], missing_in_right := [], missing_in_left := [] } := by
  have hc : (diff_maps m m).changed = [] := by
    rw [List.eq_nil_iff_forall_not_mem]
    intro k hk
    rw [mem_diff_changed] at hk
    rcases hk with ⟨v, rv, hv, hrv, hne⟩
    rw [hv] at hrv
    cases hrv
    exact hne rfl
  have hr : (diff_maps m m).missing_in_right = [] := by
    rw [List.eq_nil_iff_forall_not_mem]
    intro k hk
    rw [mem_diff_mir] at hk
    rw [hk.2] at hk
    simpa using hk.1
  have hl : (diff_maps m m).missing_in_left = [] := by
    rw [List.eq_nil_iff_forall_not_mem]
    intro k hk
    rw [mem_diff_mil] at hk
    rw [hk.2] at hk
    simpa using hk.1
  cases h : diff_maps m m
  rw [h] at hc hr hl
  simp_all

/-- C3: diffing a map against itself yields three empty lists, and a
snapshot compared with itself (any flags) reports no drift. -/
theorem diff_reflexive_no_drift :
    (∀ m : List (String × String),
      diff_maps m m = { changed := [], missing_in_right := [], missing_in_left := [] }) ∧
    (∀ (s : Snapshot) (iw sc : Bool), has_drift (summarize s s iw sc) = false) := by
  refine ⟨diff_maps_self, fun s iw sc => ?_⟩
  simp only [summarize, diff_maps_self]
  rfl

/-! ## Whitespace, trim and collapse lemmas (claim C4) -/

theorem dropWhile_head_false {p : Char → Bool} :
    ∀ {l : List Char} {c : Char} {t : List Char}, l.dropWhile p = c :: t → p c = false := by
  intro l
  induction l with
  | nil => intro c t h; simp [List.dropWhile] at h
  | cons a l ih =>
    intro c t h
    rw [List.dropWhile] at h
    split at h
    · exact ih h
    · rename_i hp
      cases h
      simpa using hp

theorem dropWhile_id_of_head {p : Char → Bool} {l : List Char}
    (h : ∀ c, l.head? = some c → p c = false) : l.dropWhile p = l := by
  cases l with
  | nil => rfl
  | cons a t =>
    rw [List.dropWhile]
    simp [h a rfl]

theorem getLast?_of_suffix {l₁ l₂ : List Char} (h : l₁ <:+ l₂) (hne : l₁ ≠ []) :
    l₂.getLast? = l₁.getLast? := by
  obtain ⟨t, rfl⟩ := h
  rw [List.getLast?_append]
  cases h1 : l₁.getLast? with
  | none => exact absurd (by simpa using h1) hne
  | some x => simp

theorem head?_reverse' (l : List Char) : l.reverse.head? = l.getLast? := by
  have := List.getLast?_reverse l.reverse
  rw [List.reverse_reverse] at this
  exact this.symm

theorem trimChars_head {l : List Char} {c : Char}
    (h : (trimChars l).head? = some c) : isRustWS c = false := by
  unfold trimChars at h
  rw [show (((l.dropWhile isRustWS).reverse.dropWhile isRustWS).reverse).head? =
      ((l.dropWhile isRustWS).reverse.dropWhile isRustWS).getLast? from by
    rw [head?_reverse']] at h
  have hne : (l.dropWhile isRustWS).reverse.dropWhile isRustWS ≠ [] := by
    intro hnil
    rw [hnil] at h
    simp at h
  have hsuf := List.dropWhile_suffix (l := (l.dropWhile isRustWS).reverse) isRustWS
  have := getLast?_of_suffix hsuf hne
  rw [← this, List.getLast?_reverse] at h
  cases hA : (l.dropWhile isRustWS) with
  | nil => rw [hA] at h; simp at h
  | cons a t =>
    rw [hA] at h
    simp at h
    rw [← h]
    exact dropWhile_head_false hA

theorem trimChars_last {l : List Char} {c : Char}
    (h : (trimChars l).getLast? = some c) : isRustWS c = false := by
  unfold trimChars at h
  rw [List.getLast?_reverse] at h
  cases hD : (l.dropWhile isRustWS).reverse.dropWhile isRustWS with
  | nil => rw [hD] at h; simp at h
  | cons a t =>
    rw [hD] at h
    simp at h
    rw [← h]
    exact dropWhile_head_false hD

theorem trimChars_id {l : List Char}
    (h1 : ∀ c, l.head? = some c → isRustWS c = false)
    (h2 : ∀ c, l.getLast? = some c → isRustWS c = false) : trimChars l = l := by
  unfold trimChars
  rw [dropWhile_id_of_head h1]
  rw [dropWhile_id_of_head (by intro c hc; rw [head?_reverse'] at hc; exact h2 c hc)]
  exact List.reverse_reverse l

theorem collapseGo_fuel : ∀ (f1 f2 : Nat) (l : List Char),
    l.length ≤ f1 → l.length ≤ f2 → collapseGo f1 l = collapseGo f2 l := by
  intro f1
  induction f1 with
  | zero =>
    intro f2 l h1 _
    have : l = [] := List.eq_nil_of_length_eq_zero (Nat.le_zero.mp h1)
    subst this
    cases f2 <;> rfl
  | succ f1 ih =>
    intro f2 l h1 h2
    cases l with
    | nil => cases f2 <;> rfl
    | cons c rest =>
      cases f2 with
      | zero => simp at h2
      | succ f2 =>
        simp only [collapseGo]
        split
        · have hd := (List.dropWhile_sublist (l := rest) isRustWS).length_le
          simp only [List.length_cons] at h1 h2
          rw [ih f2 (rest.dropWhile isRustWS) (by omega) (by omega)]
        · simp only [List.length_cons] at h1 h2
          rw [ih f2 rest (by omega) (by omega)]

theorem collapseGo_chars : ∀ (fuel : Nat) (l : List Char), l.length ≤ fuel →
    ∀ c ∈ collapseGo fuel l, c = ' ' ∨ isRustWS c = false := by
  intro fuel
  induction fuel with
  | zero =>
    intro l h1 c hc
    have : l = [] := List.eq_nil_of_length_eq_zero (Nat.le_zero.mp h1)
    subst this
    simp [collapseGo] at hc
  | succ fuel ih =>
    intro l h1 c hc
    cases l with
    | nil => simp [collapseGo] at hc
    | cons a rest =>
      simp only [collapseGo] at hc
      split at hc
      · rcases List.mem_cons.mp hc with h | h
        · left; exact h
        · have hd := (List.dropWhile_sublist (l := rest) isRustWS).length_le
          simp only [List.length_cons] at h1
          exact ih _ (by omega) c h
      · rcases List.mem_cons.mp hc with h | h
        · right; subst h; rename_i hws; simpa using hws
        · simp only [List.length_cons] at h1
          exact ih _ (by omega) c h

theorem collapseGo_head : ∀ (fuel : Nat) (l : List Char) (c : Char),
    (collapseGo fuel l).head? = some c → c = ' ' ∨ l.head? = some c := by
  intro fuel l c h
  cases fuel with
  | zero =>
    cases l with
    | nil => simp [collapseGo] at h
    | cons a rest => right; simpa [collapseGo] using h
  | succ fuel =>
    cases l with
    | nil => simp [collapseGo] at h
    | cons a rest =>
      simp only [collapseGo] at h
      split at h
      · left; simpa using h.symm
      · right; simpa using h

theorem collapseGo_last : ∀ (fuel : Nat) (l : List Char), l.length ≤ fuel →
    (∀ c, l.getLast? = some c → isRustWS c = false) →
    ∀ c, (collapseGo fuel l).getLast? = some c → isRustWS c = false := by
  intro fuel
  induction fuel with
  | zero =>
    intro l h1 h2 c hc
    have : l = [] := List.eq_nil_of_length_eq_zero (Nat.le_zero.mp h1)
    subst this
    simp [collapseGo] at hc
  | succ fuel ih =>
    intro l h1 h2 c hc
    cases l with
    | nil => simp [collapseGo] at hc
    | cons a rest =>
      simp only [collapseGo] at hc
      split at hc
      · rename_i hws
        -- output ' ' :: collapseGo fuel d
        rcases ho : collapseGo fuel (rest.dropWhile isRustWS) with _ | ⟨x, xs⟩
        · -- output = [' '], so getLast = ' ' : then l's last is ws? derive contradiction
          rw [ho] at hc
          simp at hc
          -- collapseGo fuel d = [] means d = [] (for fuel ≥ d.length)... d = [] means rest is all ws
          -- then getLast l is ws, contradicting h2 unless rest = [] and last l = a (ws) contradiction
          exfalso
          have hd : rest.dropWhile isRustWS = [] := by
            cases hdd : rest.dropWhile isRustWS with
            | nil => rfl
            | cons y ys =>
              rw [hdd] at ho
              cases fuel with
              | zero =>
                have := (List.dropWhile_sublist (l := rest) isRustWS).length_le
                rw [hdd] at this
                simp only [List.length_cons] at h1 this
                omega
              | succ fuel => simp only [collapseGo] at ho; split at ho <;> cases ho
          have hallws : ∀ c ∈ rest, isRustWS c = true := by
            simpa using (List.dropWhile_eq_nil_iff).mp hd
          -- getLast? (a :: rest) is some ws char
          rcases hlast : (a :: rest).getLast? with _ | ⟨z⟩
          · simp at hlast
          · have hz := h2 z hlast
            have hzmem : z ∈ a :: rest := List.mem_of_mem_getLast? hlast
            rcases List.mem_cons.mp hzmem with h | h
            · subst h; rw [hws] at hz; cases hz
            · rw [hallws z h] at hz; cases hz
        · rw [ho] at hc
          rw [List.getLast?_cons_cons] at hc
          have hlast2 : ∀ c', (rest.dropWhile isRustWS).getLast? = some c' → isRustWS c' = false := by
            intro c' hc'
            have hne : rest.dropWhile isRustWS ≠ [] := by
              intro hnil
              rw [hnil] at ho
              cases fuel <;> simp [collapseGo] at ho
            have hsuf := List.dropWhile_suffix (l := rest) isRustWS
            have heq := getLast?_of_suffix hsuf hne
            -- rest.getLast? = (dropWhile).getLast?; and l.getLast? = rest.getLast? since rest ≠ []
            have hrne : rest ≠ [] := by
              intro hnil; rw [hnil] at hne; simp [List.dropWhile] at hne
            have : (a :: rest).getLast? = rest.getLast? := by
              cases rest with
              | nil => exact absurd rfl hrne
              | cons r rs => rw [List.getLast?_cons_cons]
            apply h2
            rw [this, heq, hc']
          have hd := (List.dropWhile_sublist (l := rest) isRustWS).length_le
          simp only [List.length_cons] at h1
          have := ih (rest.dropWhile isRustWS) (by omega) hlast2 c
          rw [ho] at this
          exact this (by rw [← hc])
      · -- a non-ws, output a :: collapseGo fuel rest
        rcases ho : collapseGo fuel rest with _ | ⟨x, xs⟩
        · rw [ho] at hc
          simp at hc
          rename_i hws
          subst hc
          simpa using hws
        · rw [ho] at hc
          rw [List.getLast?_cons_cons] at hc
          have hrne : rest ≠ [] := by
            intro hnil
            subst hnil
            cases fuel <;> simp [collapseGo] at ho
          have hlast2 : ∀ c', rest.getLast? = some c' → isRustWS c' = false := by
            intro c' hc'
            apply h2
            cases rest with
            | nil => exact absurd rfl hrne
            | cons r rs => rw [List.getLast?_cons_cons]; exact hc'
          simp only [List.length_cons] at h1
          have := ih rest (by omega) hlast2 c
          rw [ho] at this
          exact this (by rw [← hc])

theorem collapseGo_cons_ws {fuel : Nat} {x : Char} {xs : List Char}
    (h : isRustWS x = true) :
    collapseGo (fuel + 1) (x :: xs) = ' ' :: collapseGo fuel (xs.dropWhile isRustWS) := by
  simp [collapseGo, h]

theorem collapseGo_cons_nonws {fuel : Nat} {x : Char} {xs : List Char}
    (h : isRustWS x = false) :
    collapseGo (fuel + 1) (x :: xs) = x :: collapseGo fuel xs := by
  simp [collapseGo, h]

theorem collapseWS_idem_go : ∀ (fuel : Nat) (l : List Char), l.length ≤ fuel →
    collapseWS (collapseGo fuel l) = collapseGo fuel l := by
  intro fuel
  induction fuel with
  | zero =>
    intro l h1
    have : l = [] := List.eq_nil_of_length_eq_zero (Nat.le_zero.mp h1)
    subst this
    rfl
  | succ fuel ih =>
    intro l h1
    cases l with
    | nil => rfl
    | cons a rest =>
      simp only [List.length_cons] at h1
      by_cases hws : isRustWS a = true
      · rw [collapseGo_cons_ws hws]
        have hdlen : (rest.dropWhile isRustWS).length ≤ fuel := by
          have := (List.dropWhile_sublist (l := rest) isRustWS).length_le
          omega
        set out := collapseGo fuel (rest.dropWhile isRustWS) with hout_def
        have hout : out.dropWhile isRustWS = out := by
          apply dropWhile_id_of_head
          intro c hc
          rcases hdd : rest.dropWhile isRustWS with _ | ⟨x, xs⟩
          · rw [hout_def, hdd] at hc
            cases fuel <;> simp [collapseGo] at hc
          · have hx : isRustWS x = false := dropWhile_head_false hdd
            rcases fuel with _ | fuel'
            · rw [hdd] at hdlen; simp at hdlen
            · rw [hout_def, hdd, collapseGo_cons_nonws hx] at hc
              simp at hc
              rw [← hc]
              exact hx
        show collapseWS (' ' :: out) = ' ' :: out
        unfold collapseWS
        simp only [List.length_cons]
        rw [collapseGo_cons_ws (by decide)]
        rw [hout]
        rw [show collapseGo out.length out = collapseWS out from rfl]
        rw [hout_def]
        rw [ih _ hdlen]
      · rw [collapseGo_cons_nonws (by simpa using hws)]
        set out := collapseGo fuel rest with hout_def
        show collapseWS (a :: out) = a :: out
        unfold collapseWS
        simp only [List.length_cons]
        rw [collapseGo_cons_nonws (by simpa using hws)]
        rw [show collapseGo out.length out = collapseWS out from rfl]
        rw [hout_def]
        rw [ih _ (by omega)]

theorem replaceCRLF_id_of_no_cr : ∀ (l : List Char), (∀ c ∈ l, c ≠ '\r') →
    replaceCRLF l = l := by
  intro l
  induction l with
  | nil => intro _; rfl
  | cons a t ih =>
    intro h
    cases t with
    | nil => rfl
    | cons b rest =>
      have ha : a ≠ '\r' := h a (by simp)
      rw [show replaceCRLF (a :: b :: rest) = a :: replaceCRLF (b :: rest) from by
        simp [replaceCRLF, ha]]
      rw [ih (fun c hc => h c (List.mem_cons_of_mem _ hc))]

theorem normalize_idem_iw : ∀ (s : String),
    normalize_definition (normalize_definition s true false) true false =
      normalize_definition s true false := by
  intro s
  have hdata : (normalize_definition s true false).data =
      collapseWS (trimChars (replaceCRLF s.data)) := rfl
  generalize hw : trimChars (replaceCRLF s.data) = w at hdata
  have hchars : ∀ c ∈ collapseWS w, c = ' ' ∨ isRustWS c = false :=
    collapseGo_chars w.length w le_rfl
  have hnocr : ∀ c ∈ collapseWS w, c ≠ '\r' := by
    intro c hc heq
    rcases hchars c hc with h | h
    · rw [heq] at h; cases h
    · rw [heq] at h; simp [isRustWS] at h
  have hwhead : ∀ c, w.head? = some c → isRustWS c = false := by
    intro c hc
    rw [← hw] at hc
    exact trimChars_head hc
  have hwlast : ∀ c, w.getLast? = some c → isRustWS c = false := by
    intro c hc
    rw [← hw] at hc
    exact trimChars_last hc
  have hn1head : ∀ c, (collapseWS w).head? = some c → isRustWS c = false := by
    intro c hc
    rcases hww : w with _ | ⟨x, xs⟩
    · rw [hww] at hc; simp [collapseWS, collapseGo] at hc
    · have hx : isRustWS x = false := hwhead x (by rw [hww]; rfl)
      rw [hww] at hc
      unfold collapseWS at hc
      rw [List.length_cons, collapseGo_cons_nonws hx] at hc
      simp at hc
      rw [← hc]
      exact hx
  have hn1last : ∀ c, (collapseWS w).getLast? = some c → isRustWS c = false :=
    fun c hc => collapseGo_last w.length w le_rfl hwlast c hc
  have h1 : replaceCRLF (collapseWS w) = collapseWS w :=
    replaceCRLF_id_of_no_cr _ hnocr
  have h2 : trimChars (collapseWS w) = collapseWS w := trimChars_id hn1head hn1last
  have h3 : collapseWS (collapseWS w) = collapseWS w := collapseWS_idem_go w.length w le_rfl
  show (⟨collapseWS (trimChars (replaceCRLF
      (normalize_definition s true false).data))⟩ : String) =
    normalize_definition s true false
  rw [hdata, h1, h2, h3]
  exact String.ext hdata.symm

theorem hasDD_cons {c : Char} {l : List Char} (h : hasDashDash (c :: l) = true) :
    (c = '-' ∧ l.head? = some '-') ∨ hasDashDash l = true := by
  cases l with
  | nil => simp [hasDashDash] at h
  | cons b t =>
    rw [show hasDashDash (c :: b :: t) = ((c == '-' && b == '-') || hasDashDash (b :: t))
      from rfl] at h
    rcases Bool.or_eq_true_iff.mp h with h | h
    · left
      have := Bool.and_eq_true_iff.mp h
      exact ⟨eq_of_beq this.1, by rw [eq_of_beq this.2]; rfl⟩
    · right; exact h

theorem hasDD_parts : ∀ {l : List Char}, hasDashDash l = true ↔
    ∃ u v, l = u ++ '-' :: '-' :: v := by
  intro l
  induction l with
  | nil => simp [hasDashDash]
  | cons a t ih =>
    cases t with
    | nil =>
      simp only [hasDashDash]
      constructor
      · intro h; cases h
      · rintro ⟨u, v, h⟩
        rcases u with _ | ⟨x, xs⟩
        · simp at h
        · rcases xs with _ | ⟨y, ys⟩ <;> simp at h
    | cons b t' =>
      rw [show hasDashDash (a :: b :: t') = ((a == '-' && b == '-') || hasDashDash (b :: t'))
        from rfl]
      constructor
      · intro h
        rcases Bool.or_eq_true_iff.mp h with h | h
        · have hab := Bool.and_eq_true_iff.mp h
          exact ⟨[], t', by rw [eq_of_beq hab.1, eq_of_beq hab.2]; rfl⟩
        · rcases ih.mp h with ⟨u, v, huv⟩
          exact ⟨a :: u, v, by rw [List.cons_append, huv]⟩
      · rintro ⟨u, v, huv⟩
        rcases u with _ | ⟨x, xs⟩
        · simp at huv
          apply Bool.or_eq_true_iff.mpr
          left
          rw [huv.1, huv.2.1]
          rfl
        · rw [List.cons_append] at huv
          injection huv with h1 h2
          apply Bool.or_eq_true_iff.mpr
          right
          exact ih.mpr ⟨xs, v, h2⟩

theorem hasDD_of_chunk {l' l : List Char} (h : l' <:+: l)
    (hdd : hasDashDash l' = true) : hasDashDash l = true := by
  rcases hasDD_parts.mp hdd with ⟨u, v, rfl⟩
  rcases h with ⟨p, s, rfl⟩
  exact hasDD_parts.mpr ⟨p ++ u, v ++ s, by simp⟩

theorem hasDD_false_of_chunk {l' l : List Char} (h : l' <:+: l)
    (hdd : hasDashDash l = false) : hasDashDash l' = false := by
  cases hd : hasDashDash l' with
  | false => rfl
  | true => rw [hasDD_of_chunk h hd] at hdd; cases hdd

theorem trimChars_chunk (l : List Char) : trimChars l <:+: l := by
  unfold trimChars
  have h1 : l.dropWhile isRustWS <:+ l := List.dropWhile_suffix _
  have h2 : (l.dropWhile isRustWS).reverse.dropWhile isRustWS <:+
      (l.dropWhile isRustWS).reverse := List.dropWhile_suffix _
  have h3 : ((l.dropWhile isRustWS).reverse.dropWhile isRustWS).reverse <+:
      l.dropWhile isRustWS := by
    rw [← List.reverse_suffix]
    simpa using h2
  exact h3.isInfix.trans h1.isInfix

theorem stripLineGo_true_head : ∀ {l : List Char} {c : Char},
    (stripLineGo true l).head? = some c → c = '\n' := by
  intro l
  induction l with
  | nil => intro c h; simp [stripLineGo] at h
  | cons a t ih =>
    intro c h
    rw [show stripLineGo true (a :: t) =
        (if a = '\n' then '\n' :: stripLineGo false t else stripLineGo true t) from rfl] at h
    split at h
    · simpa using h.symm
    · exact ih h

theorem stripLineGo_false_head : ∀ {l : List Char} {c : Char},
    (stripLineGo false l).head? = some c → l.head? = some c ∨ c = '\n' := by
  intro l c h
  cases l with
  | nil => simp [stripLineGo] at h
  | cons a t =>
    cases t with
    | nil =>
      rw [show stripLineGo false [a] = [a] from rfl] at h
      left; exact h
    | cons b t' =>
      rw [show stripLineGo false (a :: b :: t') =
          (if a = '-' ∧ b = '-' then stripLineGo true t'
           else a :: stripLineGo false (b :: t')) from rfl] at h
      split at h
      · right; exact stripLineGo_true_head h
      · left; simpa using h

theorem stripLineGo_noDD : ∀ (n : Nat) (l : List Char), l.length ≤ n →
    ∀ mode, hasDashDash (stripLineGo mode l) = false := by
  intro n
  induction n with
  | zero =>
    intro l h mode
    have : l = [] := List.eq_nil_of_length_eq_zero (Nat.le_zero.mp h)
    subst this
    cases mode <;> rfl
  | succ n ih =>
    intro l h mode
    cases l with
    | nil => cases mode <;> rfl
    | cons a t =>
      simp only [List.length_cons] at h
      cases mode with
      | true =>
        rw [show stripLineGo true (a :: t) =
            (if a = '\n' then '\n' :: stripLineGo false t else stripLineGo true t) from rfl]
        split
        · cases hdd : hasDashDash ('\n' :: stripLineGo false t) with
          | false => rfl
          | true =>
            rcases hasDD_cons hdd with ⟨h1, _⟩ | h1
            · cases h1
            · rw [ih t (by omega) false] at h1; cases h1
        · exact ih t (by omega) true
      | false =>
        cases t with
        | nil => rfl
        | cons b t' =>
          rw [show stripLineGo false (a :: b :: t') =
              (if a = '-' ∧ b = '-' then stripLineGo true t'
               else a :: stripLineGo false (b :: t')) from rfl]
          split
          · simp only [List.length_cons] at h
            exact ih t' (by omega) true
          · rename_i hnp
            cases hdd : hasDashDash (a :: stripLineGo false (b :: t')) with
            | false => rfl
            | true =>
              rcases hasDD_cons hdd with ⟨h1, h2⟩ | h1
              · subst h1
                rcases stripLineGo_false_head h2 with h3 | h3
                · simp at h3
                  exact absurd ⟨rfl, h3⟩ hnp
                · cases h3
              · rw [ih (b :: t') (by simpa using h) false] at h1
                cases h1

theorem collapseGo_noDD : ∀ (fuel : Nat) (l : List Char), l.length ≤ fuel →
    hasDashDash l = false → hasDashDash (collapseGo fuel l) = false := by
  intro fuel
  induction fuel with
  | zero =>
    intro l h1 h2
    have : l = [] := List.eq_nil_of_length_eq_zero (Nat.le_zero.mp h1)
    subst this
    rfl
  | succ fuel ih =>
    intro l h1 h2
    cases l with
    | nil => rfl
    | cons a rest =>
      simp only [List.length_cons] at h1
      by_cases hws : isRustWS a = true
      · rw [collapseGo_cons_ws hws]
        have hd : rest.dropWhile isRustWS <:+: rest := (List.dropWhile_suffix _).isInfix
        have hl : rest <:+: a :: rest := ⟨[a], [], by simp⟩
        have hrestDD : hasDashDash (rest.dropWhile isRustWS) = false :=
          hasDD_false_of_chunk (hd.trans hl) h2
        have hdlen : (rest.dropWhile isRustWS).length ≤ fuel := by
          have := (List.dropWhile_sublist (l := rest) isRustWS).length_le
          omega
        cases hdd : hasDashDash (' ' :: collapseGo fuel (rest.dropWhile isRustWS)) with
        | false => rfl
        | true =>
          rcases hasDD_cons hdd with ⟨h3, _⟩ | h3
          · cases h3
          · rw [ih _ hdlen hrestDD] at h3; cases h3
      · rw [collapseGo_cons_nonws (by simpa using hws)]
        have hrestDD : hasDashDash rest = false :=
          hasDD_false_of_chunk ⟨[a], [], by simp⟩ h2
        cases hdd : hasDashDash (a :: collapseGo fuel rest) with
        | false => rfl
        | true =>
          rcases hasDD_cons hdd with ⟨h3, h4⟩ | h3
          · subst h3
            rcases collapseGo_head fuel rest '-' h4 with h5 | h5
            · cases h5
            · -- rest starts with '-' and a = '-': l has "--", contradiction with h2
              rcases rest with _ | ⟨b, t⟩
              · simp at h5
              · simp at h5
                subst h5
                rw [show hasDashDash ('-' :: '-' :: t) =
                    (('-' == '-' && '-' == '-') || hasDashDash ('-' :: t)) from rfl] at h2
                simp at h2
          · rw [ih rest (by omega) hrestDD] at h3; cases h3

theorem normalize_strip_noDD : ∀ (s : String) (iw : Bool),
    hasDashDash (normalize_definition s iw true).data = false := by
  intro s iw
  have hstep : hasDashDash (stripSqlComments (replaceCRLF s.data)) = false := by
    unfold stripSqlComments
    exact stripLineGo_noDD (stripBlockComments (replaceCRLF s.data)).length _ le_rfl false
  have htrim : hasDashDash (trimChars (stripSqlComments (replaceCRLF s.data))) = false :=
    hasDD_false_of_chunk (trimChars_chunk _) hstep
  cases iw with
  | false => exact htrim
  | true =>
    show hasDashDash (collapseWS (trimChars (stripSqlComments (replaceCRLF s.data)))) = false
    exact collapseGo_noDD _ _ le_rfl htrim

/-- C4 (counterexample): `normalize` is not idempotent — one pass over
`"a\r\r\nb"` (flags false/false) leaves `"a\r\nb"`, which a second pass
changes to `"a\nb"`; and with `stripComments = true` the input
`"//**/**//**/"` normalizes to `"/**/"`, a string that still contains a
complete `/* ... */` block-comment span. -/
theorem normalize_not_idempotent_cex :
    normalize_definition (normalize_definition "a\r\r\nb" false false) false false ≠
      normalize_definition "a\r\r\nb" false false ∧
    normalize_definition "//**/**//**/" false true = "/**/" := by
  constructor
  · decide
  · decide

/-- C4 (amended): `normalize` is idempotent for the flags
`ignoreWhitespace = true, stripComments = false`; and with
`stripComments = true` the result never contains `--` (every line comment,
including any `--` newly formed by block-comment removal, is gone). -/
theorem normalize_idem_amended :
    (∀ s : String, normalize_definition (normalize_definition s true false) true false =
      normalize_definition s true false) ∧
    (∀ (s : String) (iw : Bool), hasDashDash (normalize_definition s iw true).data = false) :=
  ⟨normalize_idem_iw, normalize_strip_noDD⟩

/-! ## Index-signature uniqueness (claim C5) -/

theorem stripPfx_append : ∀ (p s : List Char), stripPfx p (p ++ s) = some s := by
  intro p
  induction p with
  | nil => intro s; rfl
  | cons c t ih => intro s; simp [stripPfx, ih]

theorem escChars_append (a b : List Char) :
    escChars (a ++ b) = escChars a ++ escChars b := by
  simp [escChars]

theorem leadBS_cons_ne {c : Char} (h : c ≠ '\\') (t : List Char) :
    leadBS (c :: t) = 0 := by
  simp [leadBS, h]

theorem leadBS_cons_bs (t : List Char) : leadBS ('\\' :: t) = leadBS t + 1 := by
  simp [leadBS]

theorem hexDigit_ne {n : Nat} (h : n < 16) : hexDigit n ≠ '\\' ∧ hexDigit n ≠ '"' := by
  interval_cases n <;> exact ⟨by decide, by decide⟩

theorem escChar_shape (c : Char) :
    (escChar c = ['\\', '"'] ∧ c = '"') ∨
    escChar c = ['\\', '\\'] ∨
    (∃ x, escChar c = ['\\', x] ∧ x ≠ '"' ∧ x ≠ '\\') ∨
    (∃ h1 h2, escChar c = ['\\', 'u', '0', '0', h1, h2] ∧
      h1 ≠ '"' ∧ h1 ≠ '\\' ∧ h2 ≠ '"' ∧ h2 ≠ '\\') ∨
    (escChar c = [c] ∧ c ≠ '"' ∧ c ≠ '\\') := by
  unfold escChar
  split
  · rename_i h; exact Or.inl ⟨rfl, h⟩
  · split
    · exact Or.inr (Or.inl rfl)
    · split
      · exact Or.inr (Or.inr (Or.inl ⟨'b', rfl, by decide, by decide⟩))
      · split
        · exact Or.inr (Or.inr (Or.inl ⟨'t', rfl, by decide, by decide⟩))
        · split
          · exact Or.inr (Or.inr (Or.inl ⟨'n', rfl, by decide, by decide⟩))
          · split
            · exact Or.inr (Or.inr (Or.inl ⟨'f', rfl, by decide, by decide⟩))
            · split
              · exact Or.inr (Or.inr (Or.inl ⟨'r', rfl, by decide, by decide⟩))
              · split
                · rename_i h32
                  refine Or.inr (Or.inr (Or.inr (Or.inl
                    ⟨hexDigit (c.toNat / 16), hexDigit (c.toNat % 16), rfl, ?_, ?_, ?_, ?_⟩)))
                  · exact (hexDigit_ne (by omega)).2
                  · exact (hexDigit_ne (by omega)).1
                  · exact (hexDigit_ne (by omega : c.toNat % 16 < 16)).2
                  · exact (hexDigit_ne (by omega : c.toNat % 16 < 16)).1
                · rename_i hq hb _ _ _ _ _ _
                  exact Or.inr (Or.inr (Or.inr (Or.inr ⟨rfl, hq, hb⟩)))

theorem leadBS_esc_even : ∀ (E : List Char) (w : List Char),
    leadBS ((escChars E).reverse ++ '"' :: w) % 2 = 0 := by
  intro E
  induction E using List.reverseRecOn with
  | nil => intro w; rw [show escChars [] = [] from rfl]; simp [leadBS_cons_ne]
  | append_singleton E c ih =>
    intro w
    rw [escChars_append, List.reverse_append, List.append_assoc,
      show escChars [c] = escChar c from by simp [escChars]]
    rcases escChar_shape c with ⟨he, _⟩ | he | ⟨x, he, _, hx⟩ | ⟨h1, h2, he, _, hb1, _, hb2⟩ | ⟨he, _, hc⟩ <;> rw [he]
    · rw [show (['\\', '"'].reverse : List Char) = ['"', '\\'] from rfl]
      rw [show ((['"', '\\'] : List Char) ++ ((escChars E).reverse ++ '"' :: w)) =
        '"' :: '\\' :: ((escChars E).reverse ++ '"' :: w) from rfl]
      rw [leadBS_cons_ne (by decide)]
    · rw [show (['\\', '\\'].reverse : List Char) = ['\\', '\\'] from rfl]
      rw [show ((['\\', '\\'] : List Char) ++ ((escChars E).reverse ++ '"' :: w)) =
        '\\' :: '\\' :: ((escChars E).reverse ++ '"' :: w) from rfl]
      rw [leadBS_cons_bs, leadBS_cons_bs]
      have := ih w
      omega
    · rw [show (['\\', x].reverse : List Char) = [x, '\\'] from rfl]
      rw [show (([x, '\\'] : List Char) ++ ((escChars E).reverse ++ '"' :: w)) =
        x :: '\\' :: ((escChars E).reverse ++ '"' :: w) from rfl]
      rw [leadBS_cons_ne hx]
    · rw [show (['\\', 'u', '0', '0', h1, h2].reverse : List Char) =
        [h2, h1, '0', '0', 'u', '\\'] from rfl]
      rw [show (([h2, h1, '0', '0', 'u', '\\'] : List Char) ++
        ((escChars E).reverse ++ '"' :: w)) =
        h2 :: h1 :: '0' :: '0' :: 'u' :: '\\' :: ((escChars E).reverse ++ '"' :: w) from rfl]
      rw [leadBS_cons_ne hb2]
    · rw [show ([c].reverse : List Char) = [c] from rfl]
      rw [show (([c] : List Char) ++ ((escChars E).reverse ++ '"' :: w)) =
        c :: ((escChars E).reverse ++ '"' :: w) from rfl]
      rw [leadBS_cons_ne hc]


theorem strLoopRev_cons_ne {c : Char} (h : c ≠ '"') (t : List Char) :
    strLoopRev (c :: t) = strLoopRev t := by
  simp [strLoopRev, h]

theorem strLoopRev_rt : ∀ (E : List Char) (s : List Char), leadBS s % 2 = 0 →
    strLoopRev ((escChars E).reverse ++ '"' :: s) = some s := by
  intro E
  induction E using List.reverseRecOn with
  | nil =>
    intro s hs
    rw [show escChars [] = [] from rfl]
    simp only [List.reverse_nil, List.nil_append]
    rw [show strLoopRev ('"' :: s) =
      (if leadBS s % 2 = 1 then strLoopRev s else some s) from by simp [strLoopRev]]
    rw [if_neg (by omega)]
  | append_singleton E c ih =>
    intro s hs
    rw [escChars_append, List.reverse_append, List.append_assoc,
      show escChars [c] = escChar c from by simp [escChars]]
    rcases escChar_shape c with ⟨he, _⟩ | he | ⟨x, he, hx1, hx2⟩ |
      ⟨h1, h2, he, hb1q, hb1s, hb2q, hb2s⟩ | ⟨he, hc1, hc2⟩ <;> rw [he]
    · rw [show (['\\', '"'].reverse : List Char) = ['"', '\\'] from rfl]
      rw [show ((['"', '\\'] : List Char) ++ ((escChars E).reverse ++ '"' :: s)) =
        '"' :: '\\' :: ((escChars E).reverse ++ '"' :: s) from rfl]
      rw [show strLoopRev ('"' :: '\\' :: ((escChars E).reverse ++ '"' :: s)) =
        (if leadBS ('\\' :: ((escChars E).reverse ++ '"' :: s)) % 2 = 1 then
          strLoopRev ('\\' :: ((escChars E).reverse ++ '"' :: s))
        else some ('\\' :: ((escChars E).reverse ++ '"' :: s))) from by simp [strLoopRev]]
      rw [if_pos (by rw [leadBS_cons_bs]; have := leadBS_esc_even E s; omega)]
      rw [strLoopRev_cons_ne (by decide)]
      exact ih s hs
    · rw [show (['\\', '\\'].reverse : List Char) = ['\\', '\\'] from rfl]
      rw [show ((['\\', '\\'] : List Char) ++ ((escChars E).reverse ++ '"' :: s)) =
        '\\' :: '\\' :: ((escChars E).reverse ++ '"' :: s) from rfl]
      rw [strLoopRev_cons_ne (by decide), strLoopRev_cons_ne (by decide)]
      exact ih s hs
    · rw [show (['\\', x].reverse : List Char) = [x, '\\'] from rfl]
      rw [show (([x, '\\'] : List Char) ++ ((escChars E).reverse ++ '"' :: s)) =
        x :: '\\' :: ((escChars E).reverse ++ '"' :: s) from rfl]
      rw [strLoopRev_cons_ne hx1, strLoopRev_cons_ne (by decide)]
      exact ih s hs
    · rw [show (['\\', 'u', '0', '0', h1, h2].reverse : List Char) =
        [h2, h1, '0', '0', 'u', '\\'] from rfl]
      rw [show (([h2, h1, '0', '0', 'u', '\\'] : List Char) ++
        ((escChars E).reverse ++ '"' :: s)) =
        h2 :: h1 :: '0' :: '0' :: 'u' :: '\\' :: ((escChars E).reverse ++ '"' :: s) from rfl]
      rw [strLoopRev_cons_ne hb2q, strLoopRev_cons_ne hb1q, strLoopRev_cons_ne (by decide),
        strLoopRev_cons_ne (by decide), strLoopRev_cons_ne (by decide),
        strLoopRev_cons_ne (by decide)]
      exact ih s hs
    · rw [show ([c].reverse : List Char) = [c] from rfl]
      rw [show (([c] : List Char) ++ ((escChars E).reverse ++ '"' :: s)) =
        c :: ((escChars E).reverse ++ '"' :: s) from rfl]
      rw [strLoopRev_cons_ne hc1]
      exact ih s hs

theorem parseStrRev_rt (E : List Char) (s : List Char) (hs : leadBS s % 2 = 0) :
    parseStrRev ((jsonStr E).reverse ++ s) = some s := by
  rw [show (jsonStr E).reverse ++ s =
      '"' :: ((escChars E).reverse ++ '"' :: s) from by
    unfold jsonStr
    simp]
  rw [show parseStrRev ('"' :: ((escChars E).reverse ++ '"' :: s)) =
    strLoopRev ((escChars E).reverse ++ '"' :: s) from rfl]
  exact strLoopRev_rt E s hs

theorem parseBoolRev_rt (b : Bool) (s : List Char) :
    parseBoolRev ((jsonBool b).reverse ++ s) = some s := by
  cases b
  · rw [show jsonBool false = "false".data from rfl]
    unfold parseBoolRev
    rw [show stripPfx "true".data.reverse ("false".data.reverse ++ s) = none from by
      rw [show "true".data.reverse = ['e', 'u', 'r', 't'] from by decide]
      rw [show "false".data.reverse = ['e', 's', 'l', 'a', 'f'] from by decide]
      simp [stripPfx]]
    exact stripPfx_append _ s
  · rw [show jsonBool true = "true".data from rfl]
    unfold parseBoolRev
    rw [stripPfx_append]


theorem leadBS_zero_of_head_colon : ∀ (p : List Char), p.head? = some ':' →
    ∀ X, leadBS (p ++ X) = 0 := by
  intro p hp X
  cases p with
  | nil => simp at hp
  | cons c t =>
    simp at hp
    subst hp
    rw [List.cons_append, leadBS_cons_ne (by decide)]

theorem parseSigRev_rt (ty : List Char) (u pk uc : Bool) (kc ic rest : List Char) :
    parseSigRev ((sigChars ty u pk uc kc ic).reverse ++ rest) = some rest := by
  unfold sigChars parseSigRev
  simp only [List.reverse_append, List.append_assoc]
  rw [show (['\x7d'].reverse : List Char) = ['\x7d'] from rfl]
  rw [stripPfx_append]
  simp only [Option.some_bind]
  rw [parseBoolRev_rt]
  simp only [Option.some_bind]
  rw [stripPfx_append]
  simp only [Option.some_bind]
  rw [parseBoolRev_rt]
  simp only [Option.some_bind]
  rw [stripPfx_append]
  simp only [Option.some_bind]
  rw [parseStrRev_rt _ _ (by
    rw [leadBS_zero_of_head_colon sigL4.reverse (by decide)])]
  simp only [Option.some_bind]
  rw [stripPfx_append]
  simp only [Option.some_bind]
  rw [parseBoolRev_rt]
  simp only [Option.some_bind]
  rw [stripPfx_append]
  simp only [Option.some_bind]
  rw [parseStrRev_rt _ _ (by
    rw [leadBS_zero_of_head_colon sigL2.reverse (by decide)])]
  simp only [Option.some_bind]
  rw [stripPfx_append]
  simp only [Option.some_bind]
  rw [parseStrRev_rt _ _ (by
    rw [leadBS_zero_of_head_colon sigL1.reverse (by decide)])]
  simp only [Option.some_bind]
  rw [stripPfx_append]
  simp only [Option.some_bind]


theorem sigChars_suffix_eq {ty1 kc1 ic1 ty2 kc2 ic2 : List Char}
    {u1 pk1 uc1 u2 pk2 uc2 : Bool}
    (h : sigChars ty1 u1 pk1 uc1 kc1 ic1 <:+ sigChars ty2 u2 pk2 uc2 kc2 ic2) :
    sigChars ty1 u1 pk1 uc1 kc1 ic1 = sigChars ty2 u2 pk2 uc2 kc2 ic2 := by
  obtain ⟨t, ht⟩ := h
  have h1 := parseSigRev_rt ty2 u2 pk2 uc2 kc2 ic2 []
  rw [List.append_nil] at h1
  have h2 := parseSigRev_rt ty1 u1 pk1 uc1 kc1 ic1 t.reverse
  rw [show (sigChars ty2 u2 pk2 uc2 kc2 ic2).reverse =
      (sigChars ty1 u1 pk1 uc1 kc1 ic1).reverse ++ t.reverse from by
    rw [← List.reverse_append, ht]] at h1
  rw [h2] at h1
  have ht0 : t.reverse = [] := by injection h1
  have : t = [] := by simpa using congrArg List.reverse ht0
  rw [this] at ht
  rw [← ht]
  simp

theorem lookup_build_index_map {rows : List IndexRow} {k v : String}
    (h : List.lookup k (build_index_map rows) = some v) :
    ∃ r ∈ rows, index_key r = k ∧ index_signature r = v := by
  have hm := lookup_mem h
  unfold build_index_map at hm
  rw [List.mem_reverse] at hm
  rcases List.mem_map.mp hm with ⟨r, hr, heq⟩
  injection heq with e1 e2
  exact ⟨r, hr, e1, e2⟩

theorem lookup_build_constraint_map {rows : List ConstraintRow} {k v : String}
    {iw sc : Bool}
    (h : List.lookup k (build_constraint_map rows iw sc) = some v) :
    ∃ r ∈ rows, constraint_key r iw sc = k ∧ constraint_key r iw sc = v := by
  have hm := lookup_mem h
  unfold build_constraint_map at hm
  rw [List.mem_reverse] at hm
  rcases List.mem_map.mp hm with ⟨r, hr, heq⟩
  injection heq with e1 e2
  exact ⟨r, hr, e1, e2⟩

theorem index_signature_suffix_key (r : IndexRow) :
    (index_signature r).data <:+ (index_key r).data := by
  unfold index_key
  refine ⟨(r.schema_name ++ "." ++ r.table_name ++ "::").data, ?_⟩
  simp [String.data_append]

/-- C5: in every summary the indexes and constraints categories have an
empty `changed` list — the index map embeds the full signature in the key
and stores the very same signature as the value, and the constraint map
stores the key itself as the value, so equal keys always carry equal
values and the changed branch of `diff_maps` is unreachable. -/
theorem summarize_idx_con_changed_empty (s1 s2 : Snapshot) (iw sc : Bool) :
    (summarize s1 s2 iw sc).indexes.changed = [] ∧
    (summarize s1 s2 iw sc).constraints.changed = [] := by
  constructor
  · have hrw : (summarize s1 s2 iw sc).indexes =
        diff_maps (build_index_map s1.indexes) (build_index_map s2.indexes) := rfl
    rw [hrw, List.eq_nil_iff_forall_not_mem]
    intro k hk
    rw [mem_diff_changed] at hk
    obtain ⟨v, rv, hv, hrv, hne⟩ := hk
    obtain ⟨r1, _, hk1, hv1⟩ := lookup_build_index_map hv
    obtain ⟨r2, _, hk2, hv2⟩ := lookup_build_index_map hrv
    apply hne
    have hd1 : (index_signature r1).data <:+ k.data := by
      rw [← hk1]; exact index_signature_suffix_key r1
    have hd2 : (index_signature r2).data <:+ k.data := by
      rw [← hk2]; exact index_signature_suffix_key r2
    have hsig : (index_signature r1).data = (index_signature r2).data := by
      rcases List.suffix_or_suffix_of_suffix hd1 hd2 with h | h
      · exact sigChars_suffix_eq h
      · exact (sigChars_suffix_eq h).symm
    rw [← hv1, ← hv2]
    exact (String.ext hsig).symm
  · have hrw : (summarize s1 s2 iw sc).constraints =
        diff_maps (build_constraint_map s1.constraints iw sc)
          (build_constraint_map s2.constraints iw sc) := rfl
    rw [hrw, List.eq_nil_iff_forall_not_mem]
    intro k hk
    rw [mem_diff_changed] at hk
    obtain ⟨v, rv, hv, hrv, hne⟩ := hk
    obtain ⟨r1, _, hk1, hv1⟩ := lookup_build_constraint_map hv
    obtain ⟨r2, _, hk2, hv2⟩ := lookup_build_constraint_map hrv
    exact hne ((hv2.symm.trans hk2).trans ((hv1.symm.trans hk1).symm))

/-! ## Apply-script shape lemmas (claims C6, C8) -/

theorem joinSep_head_length (sep h : String) (t : List String) :
    h.length ≤ (joinSep sep (h :: t)).length := by
  cases t with
  | nil => exact le_refl _
  | cons x xs =>
    rw [show joinSep sep (h :: x :: xs) = h ++ sep ++ joinSep sep (x :: xs) from rfl]
    simp only [String.length_append]
    omega

theorem head_pos_append {a b : List String}
    (ha : a = [] ∨ ∃ h t, a = h :: t ∧ 0 < h.length)
    (hb : b = [] ∨ ∃ h t, b = h :: t ∧ 0 < h.length) :
    a ++ b = [] ∨ ∃ h t, a ++ b = h :: t ∧ 0 < h.length := by
  rcases ha with rfl | ⟨h, t, rfl, hl⟩
  · simpa using hb
  · right; exact ⟨h, t ++ b, by simp, hl⟩

theorem head_pos_flatMap {α : Type} {f : α → List String}
    (hf : ∀ x, f x = [] ∨ ∃ h t, f x = h :: t ∧ 0 < h.length) :
    ∀ l : List α, l.flatMap f = [] ∨ ∃ h t, l.flatMap f = h :: t ∧ 0 < h.length := by
  intro l
  induction l with
  | nil => left; rfl
  | cons x xs ih =>
    rw [List.flatMap_cons]
    exact head_pos_append (hf x) ih

theorem apply_table_lines_shape (s : CompareSummary) (src tgt : Snapshot) :
    apply_table_lines s src tgt = [] ∨
    ∃ t, apply_table_lines s src tgt =
      "-- Table drift detected; non-destructive additions are applied automatically; other changes remain commented." :: t := by
  unfold apply_table_lines
  split
  · right; exact ⟨_, rfl⟩
  · left; rfl

theorem apply_drop_lines_shape (s : CompareSummary) (inc : Bool) :
    apply_drop_lines s inc = [] ∨
    ∃ t, apply_drop_lines s inc =
      "-- Dropping objects that exist only in target" :: t := by
  unfold apply_drop_lines
  split
  · right; exact ⟨_, rfl⟩
  · left; rfl

theorem apply_module_lines_head (s : CompareSummary) (src : Snapshot) :
    apply_module_lines s src = [] ∨
    ∃ h t, apply_module_lines s src = h :: t ∧ 0 < h.length := by
  unfold apply_module_lines
  apply head_pos_append <;>
  · apply head_pos_flatMap
    intro k
    cases List.lookup k ((src.modules.map (fun r => (module_key r, r))).reverse) with
    | none => left; rfl
    | some row =>
      right
      refine ⟨_, _, rfl, ?_⟩
      have h3 : 0 < "-- ".length := by decide
      simp only [String.length_append]
      omega

/-- C6: a summary whose four categories are all empty renders to the
single fixed placeholder line, whatever the snapshots; and for every
input, the rendered apply script is a nonempty string. -/
theorem render_placeholder_nonempty :
    (∀ (source target : Snapshot) (include_drops : Bool),
      render_apply_script
        { modules := { changed := [], missing_in_right := [], missing_in_left := [] },
          indexes := { changed := [], missing_in_right := [], missing_in_left := [] },
          constraints := { changed := [], missing_in_right := [], missing_in_left := [] },
          tables := { changed := [], missing_in_right := [], missing_in_left := [] } }
        source target include_drops = "-- No drift detected; nothing to apply") ∧
    (∀ (summary : CompareSummary) (source target : Snapshot) (include_drops : Bool),
      0 < (render_apply_script summary source target include_drops).length) := by
  constructor
  · intro source target include_drops
    cases include_drops <;> rfl
  · intro summary source target include_drops
    have hrw : render_apply_script summary source target include_drops =
        joinSep "\n"
          (if (apply_table_lines summary source target ++
              apply_drop_lines summary include_drops ++
              apply_module_lines summary source).isEmpty = true then
            ["-- No drift detected; nothing to apply"]
          else
            apply_table_lines summary source target ++
              apply_drop_lines summary include_drops ++
              apply_module_lines summary source) := rfl
    have hlines := head_pos_append
      (head_pos_append (apply_table_lines_shape summary source target |>.imp id
        (fun ⟨t, ht⟩ => ⟨_, t, ht, by decide⟩))
        (apply_drop_lines_shape summary include_drops |>.imp id
          (fun ⟨t, ht⟩ => ⟨_, t, ht, by decide⟩)))
      (apply_module_lines_head summary source)
    rcases hlines with hnil | ⟨h, t, heq, hl⟩
    · rw [hrw, hnil]
      decide
    · rw [hrw, heq]
      rw [if_neg (by simp)]
      calc 0 < h.length := hl
        _ ≤ (joinSep "\n" (h :: t)).length := joinSep_head_length _ _ _

/-! ## Apply-script statement shapes (claims C8, C1) -/

set_option maxRecDepth 8192

theorem isPrefixOf_append (p a b : List Char) (h : p.isPrefixOf a = true) :
    p.isPrefixOf (a ++ b) = true := by
  rw [List.isPrefixOf_iff_prefix] at h ⊢
  exact h.trans (List.prefix_append a b)

theorem startsWith_append {p a : String} (b : String) (h : startsWithStr p a = true) :
    startsWithStr p (a ++ b) = true := by
  unfold startsWithStr at h ⊢
  rw [String.data_append]
  exact isPrefixOf_append _ _ _ h

theorem startsWith_joinSep_cons {p h : String} (sep : String) (t : List String)
    (hp : startsWithStr p h = true) :
    startsWithStr p (joinSep sep (h :: t)) = true := by
  cases t with
  | nil => exact hp
  | cons x xs =>
    rw [show joinSep sep (h :: x :: xs) = h ++ sep ++ joinSep sep (x :: xs) from rfl]
    exact startsWith_append _ (startsWith_append _ hp)

theorem allowed_comment {line : String} (h : startsWithStr "--" line = true) :
    allowedApplyTableLine line = true := by
  simp [allowedApplyTableLine, h]

theorem allowed_alter {line : String} (h : startsWithStr "ALTER TABLE [" line = true) :
    allowedApplyTableLine line = true := by
  simp [allowedApplyTableLine, h]

theorem allowed_add {line : String} (h : startsWithStr "  ADD " line = true) :
    allowedApplyTableLine line = true := by
  simp [allowedApplyTableLine, h]

theorem allowed_create {line : String} (h : startsWithStr "CREATE TABLE [" line = true) :
    allowedApplyTableLine line = true := by
  simp [allowedApplyTableLine, h]

theorem allowed_render_table_alter (key : String) (ls rs : Option String) :
    allowedApplyTableLine (render_table_alter key ls rs) = true := by
  apply allowed_comment
  exact startsWith_joinSep_cons _ _
    (startsWith_append _ (startsWith_append _ (startsWith_append _ (by decide))))

theorem allowed_render_add_columns (key : String) (scols tcols : List TableColumnRow) :
    ∀ line ∈ render_add_columns key scols tcols, allowedApplyTableLine line = true := by
  intro line hline
  simp only [render_add_columns] at hline
  split at hline
  · cases hline
  · simp only [List.mem_cons, List.not_mem_nil, or_false] at hline
    rcases hline with rfl | rfl | rfl | rfl | rfl
    · exact allowed_comment (startsWith_append _ (startsWith_append _ (startsWith_append _
        (startsWith_append _ (startsWith_append _ (by decide))))))
    · exact allowed_alter (startsWith_append _ (startsWith_append _ (startsWith_append _
        (startsWith_append _ (by decide)))))
    · exact allowed_add (startsWith_append _ (by decide))
    · decide
    · decide

theorem apply_table_lines_allowed (s : CompareSummary) (src tgt : Snapshot) :
    (apply_table_lines s src tgt).all allowedApplyTableLine = true := by
  rw [List.all_eq_true]
  intro line hline
  simp only [apply_table_lines] at hline
  split at hline
  · rcases List.mem_cons.mp hline with rfl | hline
    · exact allowed_comment (by decide)
    · rcases List.mem_append.mp hline with hline | hline
      · rcases List.mem_append.mp hline with hline | hline
        · rcases List.mem_flatMap.mp hline with ⟨key, hkey, hmem⟩
          rcases List.mem_cons.mp hmem with rfl | hmem
          · exact allowed_render_table_alter _ _ _
          · exact allowed_render_add_columns _ _ _ _ hmem
        · rcases List.mem_flatMap.mp hline with ⟨key, hkey, hmem⟩
          rcases List.mem_cons.mp hmem with rfl | hmem
          · exact allowed_comment
              (startsWith_append _ (startsWith_append _ (by decide)))
          · split at hmem
            · rcases List.mem_singleton.mp hmem with rfl
              exact allowed_create (startsWith_append _ (startsWith_append _
                (startsWith_append _ (startsWith_append _ (startsWith_append _
                  (startsWith_append _ (by decide)))))))
            · cases hmem
      · rcases List.mem_map.mp hline with ⟨key, hkey, rfl⟩
        exact allowed_comment (startsWith_append _ (startsWith_append _ (by decide)))
  · cases hline

/-- C8: on the spec's scenario (source columns Id, Name, Note; target
columns Id, Name for the changed table `dbo.T`) the rendered script is
exactly the TODO comments plus one `ALTER TABLE [dbo].[T] ADD [Note] …`
statement, omitting Id and Name; in general `render_add_columns` emits
nothing or exactly one comment + `ALTER TABLE` + `ADD` payload + `GO`
block over precisely the source columns whose lowercased name no target
column bears; and every entry of the tables section is a comment, a
blank, `GO`, an `ALTER TABLE … ADD`, or a `CREATE TABLE` — never a
`DROP COLUMN` or `ALTER COLUMN` statement. -/
theorem render_adds_exactly_absent_columns :
    (render_apply_script (summarize srcT tgtT false false) srcT tgtT false =
      "-- Table drift detected; non-destructive additions are applied automatically; other changes remain commented.\n-- TODO: Table drift detected for dbo.T\n--   Columns differ (type/nullability/default/identity/computed). Review and craft ALTER TABLE for dbo.T.\n\n-- Adding 1 column(s) to dbo.T\nALTER TABLE [dbo].[T]\n  ADD [Note] nvarchar(200) NULL\nGO\n") ∧
    (∀ (key : String) (source_cols target_cols : List TableColumnRow),
      (source_cols.filter (fun c =>
          !((target_cols.map fun c => lowerStr c.column_name).contains
            (lowerStr c.column_name))) = [] ∧
        render_add_columns key source_cols target_cols = []) ∨
      render_add_columns key source_cols target_cols =
        ["-- Adding " ++
            toString (source_cols.filter (fun c =>
              !((target_cols.map fun c => lowerStr c.column_name).contains
                (lowerStr c.column_name)))).length ++
            " column(s) to " ++ (splitSchemaTable key).1 ++ "." ++ (splitSchemaTable key).2,
          "ALTER TABLE [" ++ (splitSchemaTable key).1 ++ "].[" ++ (splitSchemaTable key).2 ++ "]",
          "  ADD " ++ joinSep ",\n      " ((source_cols.filter (fun c =>
            !((target_cols.map fun c => lowerStr c.column_name).contains
              (lowerStr c.column_name)))).map column_definition),
          "GO", ""]) ∧
    (∀ (summary : CompareSummary) (source target : Snapshot),
      (apply_table_lines summary source target).all allowedApplyTableLine = true) := by
  refine ⟨by decide, ?_, apply_table_lines_allowed⟩
  intro key source_cols target_cols
  by_cases h : (source_cols.filter (fun c =>
      !((target_cols.map fun c => lowerStr c.column_name).contains
        (lowerStr c.column_name)))).isEmpty = true
  · left
    refine ⟨List.isEmpty_iff.mp h, ?_⟩
    simp only [render_add_columns]
    rw [if_pos h]
  · right
    simp only [render_add_columns]
    rw [if_neg h]

/-- C1 (code evaluated at the failing input): with source holding
procedure `dbo.Foo` (`CREATE PROC Foo AS SELECT 1`) and an empty target,
`summarize` files the key `dbo.P.Foo` under `missing_in_right` (not
`missingInLeft` as the spec's scenario says), and the apply script
rendered from that summary is the bare placeholder line — it contains no
`CREATE OR ALTER PROCEDURE` because the module emitter only reads
`changed` and `missing_in_left` keys out of the source-side module map. -/
theorem scenario_foo_renders_placeholder :
    (summarize srcFoo tgtEmpty false false).modules.missing_in_right = ["dbo.P.Foo"] ∧
    (summarize srcFoo tgtEmpty false false).modules.missing_in_left = [] ∧
    render_apply_script (summarize srcFoo tgtEmpty false false) srcFoo tgtEmpty false =
      "-- No drift detected; nothing to apply" := by
  refine ⟨by decide, by decide, by decide⟩

theorem contains_six (dt : String) :
    (["varchar", "char", "nvarchar", "nchar", "varbinary", "binary"].contains dt = true) ↔
      (dt = "varchar" ∨ dt = "char" ∨ dt = "nvarchar" ∨ dt = "nchar" ∨
        dt = "varbinary" ∨ dt = "binary") := by
  simp [List.contains]

/-- C7: for every table-column row whose stored length is `-1` or
nonnegative (the values SQL Server produces), `column_definition`
agrees with the spec's description `column_definition_spec`: a computed
column renders as `[name] AS expr` and nothing else; otherwise the
bracket-quoted name, the type spec (the six length-bearing types as
`type(len)` with `-1` as `max` and the two unicode types halved,
decimal/numeric as `type(precision,scale)`, datetime2/time/datetimeoffset
as `type(scale)`, anything else bare), then `IDENTITY` iff identity,
`NULL`/`NOT NULL` per nullability, and `DEFAULT expr` iff a default is
present, in that order. -/
theorem column_definition_matches_spec (col : TableColumnRow)
    (h : col.max_length = -1 ∨ 0 ≤ col.max_length) :
    column_definition col = column_definition_spec col := by
  unfold column_definition column_definition_spec
  by_cases hcomp : col.computed_definition ≠ ""
  · rw [if_pos hcomp, if_pos hcomp]
  · rw [if_neg hcomp, if_neg hcomp]
    have hft : format_type col =
        (if lowerStr col.data_type = "varchar" ∨ lowerStr col.data_type = "char" ∨
            lowerStr col.data_type = "nvarchar" ∨ lowerStr col.data_type = "nchar" ∨
            lowerStr col.data_type = "varbinary" ∨ lowerStr col.data_type = "binary" then
          lowerStr col.data_type ++ "(" ++
            (if (if lowerStr col.data_type = "nvarchar" ∨ lowerStr col.data_type = "nchar" then
                (if col.max_length = -1 then col.max_length else col.max_length / 2)
              else col.max_length) = -1 then "max"
            else toString (if lowerStr col.data_type = "nvarchar" ∨ lowerStr col.data_type = "nchar" then
                (if col.max_length = -1 then col.max_length else col.max_length / 2)
              else col.max_length)) ++ ")"
        else if lowerStr col.data_type = "decimal" ∨ lowerStr col.data_type = "numeric" then
          lowerStr col.data_type ++ "(" ++ toString col.precision ++ "," ++
            toString col.scale ++ ")"
        else if lowerStr col.data_type = "datetime2" ∨ lowerStr col.data_type = "time" ∨
            lowerStr col.data_type = "datetimeoffset" then
          lowerStr col.data_type ++ "(" ++ toString col.scale ++ ")"
        else lowerStr col.data_type) := by
      unfold format_type
      by_cases hmem : lowerStr col.data_type = "varchar" ∨ lowerStr col.data_type = "char" ∨
          lowerStr col.data_type = "nvarchar" ∨ lowerStr col.data_type = "nchar" ∨
          lowerStr col.data_type = "varbinary" ∨ lowerStr col.data_type = "binary"
      · rw [if_pos ((contains_six _).mpr hmem), if_pos hmem]
        by_cases huni : lowerStr col.data_type = "nvarchar" ∨ lowerStr col.data_type = "nchar"
        · rw [if_pos huni, if_pos huni]
          rcases h with h | h
          · rw [h]
            norm_num
          · have hne : ¬ col.max_length = -1 := by omega
            rw [if_neg hne]
            by_cases hpos : col.max_length > 0
            · rw [if_pos hpos]
            · rw [if_neg hpos]
              have h0 : col.max_length = 0 := by omega
              rw [h0]
              norm_num
        · rw [if_neg huni, if_neg huni]
      · rw [if_neg (by rw [contains_six]; exact hmem), if_neg hmem]
    rw [hft]

theorem column_definition_matches_spec_witness :
    ((mkCol "T" 2 "Name" "nvarchar" 200 false false).max_length = -1 ∨
      0 ≤ (mkCol "T" 2 "Name" "nvarchar" 200 false false).max_length) ∧
    column_definition (mkCol "T" 2 "Name" "nvarchar" 200 false false) =
      column_definition_spec (mkCol "T" 2 "Name" "nvarchar" 200 false false) :=
  ⟨Or.inr (by decide),
    column_definition_matches_spec (mkCol "T" 2 "Name" "nvarchar" 200 false false)
      (Or.inr (by decide))⟩

/-- C9: for every object-diff invocation the outcome and exit code follow
the five stated cases — found on neither side gives the not-found outcome
and exit 4; found on both sides with equal normalized definitions gives
no-drift and exit 0; found on both sides and differing gives a unified
diff of the two line-ending-normalized raw definitions and exit 3; found
on exactly one side prints both raw bodies with the empty string for the
absent side and exit 3 — and in summary mode the exit code is 3 iff the
summary has drift and 0 iff it does not. -/
theorem object_diff_outcomes_and_exit_codes (left right : Snapshot) (object : String)
    (iw sc : Bool) (summary : CompareSummary) :
    ((pick_first_module left object = none ∧ pick_first_module right object = none →
        handle_object_diff left right object iw sc = .notFound ∧
          object_diff_exit (handle_object_diff left right object iw sc) = 4) ∧
     (∀ lm rm, pick_first_module left object = some lm →
        pick_first_module right object = some rm →
        normalize_definition lm.definition iw sc = normalize_definition rm.definition iw sc →
        handle_object_diff left right object iw sc = .noDrift ∧
          object_diff_exit (handle_object_diff left right object iw sc) = 0) ∧
     (∀ lm rm, pick_first_module left object = some lm →
        pick_first_module right object = some rm →
        normalize_definition lm.definition iw sc ≠ normalize_definition rm.definition iw sc →
        handle_object_diff left right object iw sc =
          .unifiedDiff ⟨replaceCRLF lm.definition.data⟩ ⟨replaceCRLF rm.definition.data⟩ ∧
          object_diff_exit (handle_object_diff left right object iw sc) = 3) ∧
     (∀ lm, pick_first_module left object = some lm →
        pick_first_module right object = none →
        handle_object_diff left right object iw sc =
          .oneSided ⟨replaceCRLF lm.definition.data⟩ "" ∧
          object_diff_exit (handle_object_diff left right object iw sc) = 3) ∧
     (∀ rm, pick_first_module left object = none →
        pick_first_module right object = some rm →
        handle_object_diff left right object iw sc =
          .oneSided "" ⟨replaceCRLF rm.definition.data⟩ ∧
          object_diff_exit (handle_object_diff left right object iw sc) = 3)) ∧
    (summary_exit_code summary = 3 ↔ has_drift summary = true) ∧
    (summary_exit_code summary = 0 ↔ has_drift summary = false) := by
  refine ⟨⟨?_, ?_, ?_, ?_, ?_⟩, ?_, ?_⟩
  · rintro ⟨hl, hr⟩
    simp [handle_object_diff, hl, hr, object_diff_exit]
  · intro lm rm hl hr heq
    simp [handle_object_diff, hl, hr, heq, object_diff_exit]
  · intro lm rm hl hr hne
    simp [handle_object_diff, hl, hr, hne, object_diff_exit]
  · intro lm hl hr
    simp [handle_object_diff, hl, hr, object_diff_exit]
  · intro rm hl hr
    simp [handle_object_diff, hl, hr, object_diff_exit]
  · cases h : has_drift summary <;> simp [summary_exit_code, h]
  · cases h : has_drift summary <;> simp [summary_exit_code, h]

/-- C10 (counterexample): an override matching neither the URL form nor
any recognized ADO `key=value` form does not produce an error — it parses
to the default connection settings unchanged, so no ConfigError can
propagate for a malformed connection-string override. -/
theorem parse_connection_string_no_error_cex :
    parse_connection_string "this is !! not ?? a connection string" =
      .ok defaultConnectionSettings := rfl

/-- C10 (amended): `parse_connection_string` never returns an error on any
input whatsoever; both the URL-style and the ADO-style branch always
succeed, with unrecognized or malformed pieces silently ignored. -/
theorem parse_connection_string_amended (raw : String) :
    ∃ c, parse_connection_string raw = .ok c := by
  unfold parse_connection_string
  by_cases h : containsSub "://".data raw.data
  · rw [if_pos h]
    exact ⟨_, rfl⟩
  · rw [if_neg h]
    exact ⟨_, rfl⟩

end SqlCmp
